import Mathlib

/-!
Shallow embedding of the pyfs in-memory file system
(src/pyfs/filesystem.py, src/pyfs/inode.py, src/pyfs/exceptions.py).

Inodes live in an arena (a list indexed by node id), which models Python
object identity: a hard link is two directory entries holding the same id.
A DirectoryNode's reserved meta table is represented by the node's own id
(for the self reference) and a stored parent id (for the parent
back-reference); the root's parent id is its own id.  Timestamps
(ctime/mtime/atime) are not modelled: no claim mentions them, and the
claims' notion of state explicitly enumerates child tables, link counts,
contents and the session chain.

Errors mirror the exceptions module; key_error stands for the Python
KeyError escaping DirectoryNode.delete_child (dict.pop on a missing key).
Operations return their result together with the post state, also on
error, because Python exceptions leave the mutated object behind.
-/

namespace PyFS

deriving instance DecidableEq for Except

/-- Payload of an inode: FileNode contents, or DirectoryNode child table
plus the parent back-reference of its reserved meta table. -/
inductive NodeData where
  | file (contents : String)
  | dir (children : List (String × Nat)) (parent : Nat)
  deriving DecidableEq

/-- Real child entries of a node payload. -/
def childEntries : NodeData → List (String × Nat)
  | .dir ch _ => ch
  | .file _ => []

/-- Stored parent back-reference of a node payload (0 for files, which
carry none). -/
def parentIdx : NodeData → Nat
  | .dir _ p => p
  | .file _ => 0

/-- An inode record: payload plus hard-link count (INode.links). -/
structure INodeRec where
  data : NodeData
  links : Int
  deriving DecidableEq

instance : Inhabited INodeRec := ⟨⟨.file "", 0⟩⟩

/-- FileSystem session state: the inode arena, the root id, the current
directory id, and the prefix chain _path_to_current. -/
structure FileSystem where
  nodes : List INodeRec
  root : Nat
  current : Nat
  path_to_current : List (String × Nat)
  deriving DecidableEq

/-- A fresh FileSystem: only the empty root directory, whose reserved
parent reference points at itself. -/
def FileSystem.fresh : FileSystem :=
  { nodes := [⟨.dir [] 0, 1⟩], root := 0, current := 0, path_to_current := [("", 0)] }

/-! ## Python dict semantics for the child table

Python dicts preserve insertion order; assignment to an existing key
overwrites in place, a new key is appended; pop removes the entry. -/

def dictGet : List (String × Nat) → String → Option Nat
  | [], _ => none
  | (k, v) :: rest, key => if k = key then some v else dictGet rest key

def dictInsert : List (String × Nat) → String → Nat → List (String × Nat)
  | [], key, val => [(key, val)]
  | (k, v) :: rest, key, val =>
      if k = key then (k, val) :: rest else (k, v) :: dictInsert rest key val

def dictPop : List (String × Nat) → String → Option (Nat × List (String × Nat))
  | [], _ => none
  | (k, v) :: rest, key =>
      if k = key then some (v, rest)
      else match dictPop rest key with
        | some (pv, rest') => some (pv, (k, v) :: rest')
        | none => none

/-! ## Arena accessors and primitive mutations -/

def getRec (st : FileSystem) (i : Nat) : INodeRec := st.nodes.getD i default

def isDirN (st : FileSystem) (i : Nat) : Bool :=
  match (getRec st i).data with
  | .dir _ _ => true
  | .file _ => false

def isFileN (st : FileSystem) (i : Nat) : Bool :=
  match (getRec st i).data with
  | .file _ => true
  | .dir _ _ => false

def childrenOf (st : FileSystem) (i : Nat) : List (String × Nat) :=
  childEntries (getRec st i).data

def parentOf (st : FileSystem) (i : Nat) : Nat :=
  match (getRec st i).data with
  | .dir _ p => p
  | .file _ => i

def contentsOf (st : FileSystem) (i : Nat) : String :=
  match (getRec st i).data with
  | .file c => c
  | .dir _ _ => ""

def linksOf (st : FileSystem) (i : Nat) : Int := (getRec st i).links

def setRec (st : FileSystem) (i : Nat) (r : INodeRec) : FileSystem :=
  { st with nodes := st.nodes.set i r }

/-- DirectoryNode.add_child: dict assignment into the child table.
Only ever invoked on directory nodes; leaves a file node unchanged. -/
def add_child (st : FileSystem) (parent : Nat) (name : String) (child : Nat) : FileSystem :=
  match (getRec st parent).data with
  | .dir ch p => setRec st parent ⟨.dir (dictInsert ch name child) p, (getRec st parent).links⟩
  | .file _ => st

/-- DirectoryNode.delete_child: dict.pop, returning the popped node;
none models the KeyError raised on a missing key. -/
def delete_child (st : FileSystem) (parent : Nat) (name : String) :
    Option (FileSystem × Nat) :=
  match (getRec st parent).data with
  | .dir ch p =>
      match dictPop ch name with
      | some (v, ch') => some (setRec st parent ⟨.dir ch' p, (getRec st parent).links⟩, v)
      | none => none
  | .file _ => none

def inc_links (st : FileSystem) (i : Nat) : FileSystem :=
  setRec st i ⟨(getRec st i).data, (getRec st i).links + 1⟩

def dec_links (st : FileSystem) (i : Nat) : FileSystem :=
  setRec st i ⟨(getRec st i).data, (getRec st i).links - 1⟩

/-- FileNode.write_contents. -/
def set_contents (st : FileSystem) (i : Nat) (c : String) : FileSystem :=
  match (getRec st i).data with
  | .file _ => setRec st i ⟨.file c, (getRec st i).links⟩
  | .dir _ _ => st

/-- FileNode(): a new empty file inode with link count 1. -/
def alloc_file (st : FileSystem) : FileSystem × Nat :=
  ({ st with nodes := st.nodes ++ [⟨.file "", 1⟩] }, st.nodes.length)

/-- DirectoryNode(parent=...): a new empty directory inode with link
count 1 whose reserved parent reference is the given node. -/
def alloc_dir (st : FileSystem) (parent : Nat) : FileSystem × Nat :=
  ({ st with nodes := st.nodes ++ [⟨.dir [] parent, 1⟩] }, st.nodes.length)

/-- DirectoryNode.find_child: the real child table first, the reserved
meta table only if the name is not a real child. -/
def find_child (st : FileSystem) (i : Nat) (name : String) : Option Nat :=
  match (getRec st i).data with
  | .file _ => none
  | .dir ch p =>
      match dictGet ch name with
      | some v => some v
      | none =>
          if name = "." then some i
          else if name = ".." then some p
          else none

/-! ## Path strings

str.split("/"), "/".join and the leading-separator test, implemented over
the character list so every path computation evaluates in the kernel. -/

def splitAux : List Char → List Char → List String
  | cur, [] => [String.mk cur.reverse]
  | cur, c :: rest =>
      if c = '/' then String.mk cur.reverse :: splitAux [] rest
      else splitAux (c :: cur) rest

/-- name.split("/"); like Python, "".split("/") is [""]. -/
def splitPath (s : String) : List String := splitAux [] s.data

/-- "/".join(parts). -/
def joinSlash : List String → String
  | [] => ""
  | [x] => x
  | x :: xs => x ++ "/" ++ joinSlash xs

def startsWithSlash (s : String) : Bool :=
  match s.data with
  | '/' :: _ => true
  | _ => false

/-- name[1:] for stripping the leading separator. -/
def dropFirstChar (s : String) : String := String.mk s.data.tail

/-- Parent path of a compound path: "/".join(name.split("/")[:-1]). -/
def parent_path_of (name : String) : String := joinSlash (splitPath name).dropLast

/-- Final component of a compound path: name.split("/")[-1]. -/
def requested_of (name : String) : String := (splitPath name).getLastD ""

/-! ## Errors (pyfs.exceptions, plus the escaping KeyError) -/

inductive Err where
  | no_such_file_or_directory (name : String)
  | not_a_directory (name : String)
  | is_a_directory (name : String)
  | file_exists (name : String)
  | key_error (name : String)
  deriving DecidableEq

/-! ## Path resolution (FileSystem._get_node and friends)

The walk carries an Option node; once the walk yields none, or lands on a
file node, remaining components no longer descend (the Python loop guard
is: if node and isinstance(node, DirectoryNode)). -/

def get_node_walk (st : FileSystem) : Option Nat → List String → Option Nat
  | node, [] => node
  | some n, part :: parts =>
      if isDirN st n then get_node_walk st (find_child st n part) parts
      else get_node_walk st (some n) parts
  | none, _ :: parts => get_node_walk st none parts

/-- FileSystem._get_node: an empty name means the current directory. -/
def get_node (st : FileSystem) (name : String) : Option Nat :=
  if name = "" then some st.current
  else
    let rootRel := startsWithSlash name
    let stripped := if rootRel then dropFirstChar name else name
    get_node_walk st (some (if rootRel then st.root else st.current)) (splitPath stripped)

/-- FileSystem._get_node_or_fail. -/
def get_node_or_fail (st : FileSystem) (name : String) : Except Err Nat :=
  match get_node st name with
  | some n => .ok n
  | none => .error (.no_such_file_or_directory name)

/-- FileSystem._get_directory_or_fail. -/
def get_directory_or_fail (st : FileSystem) (name : String) : Except Err Nat :=
  match get_node_or_fail st name with
  | .ok n => if isDirN st n then .ok n else .error (.not_a_directory name)
  | .error e => .error e

/-- FileSystem._fail_if_node_exists. -/
def fail_if_node_exists (st : FileSystem) (name : String) : Except Err Unit :=
  if (get_node st name).isSome then .error (.file_exists name) else .ok ()

/-! ## FileSystem._resolve_path

For a relative path the Python code walks self._path_to_current itself
(no copy), so every pop/append during the walk mutates the session chain,
and the returned list is that same session list.  ChainRef models the
returned object's identity: session for the (mutated) session chain,
fresh for the newly built list of the root-relative case. -/

inductive ChainRef where
  | session
  | fresh (chain : List (String × Nat))
  deriving DecidableEq

def readChain (st : FileSystem) : ChainRef → List (String × Nat)
  | .session => st.path_to_current
  | .fresh c => c

def resolve_loop (st : FileSystem) (errName : String) :
    Nat → List (String × Nat) → List String →
    Except Err Nat × List (String × Nat)
  | node, chain, [] => (.ok node, chain)
  | node, chain, part :: parts =>
      match find_child st node part with
      | none => (.error (.no_such_file_or_directory errName), chain)
      | some next =>
          if isDirN st next then
            let chain' :=
              if part = ".." then (if chain.length > 1 then chain.dropLast else chain)
              else if part = "." then chain
              else chain ++ [(part, next)]
            resolve_loop st errName next chain' parts
          else resolve_loop st errName node chain parts

def resolve_path (st : FileSystem) (name : String) : Except Err ChainRef × FileSystem :=
  if name = "" then (.ok .session, st)
  else
    let rootRel := startsWithSlash name
    let stripped := if rootRel then dropFirstChar name else name
    let parts := splitPath stripped
    if rootRel then
      let r := resolve_loop st stripped st.root [("", st.root)] parts
      match r.1 with
      | .ok _ => (.ok (.fresh r.2), st)
      | .error e => (.error e, st)
    else
      let r := resolve_loop st stripped st.current st.path_to_current parts
      match r.1 with
      | .ok _ => (.ok .session, { st with path_to_current := r.2 })
      | .error e => (.error e, { st with path_to_current := r.2 })

/-! ## Operations -/

/-- FileSystem.cd. An empty name models the no-argument call. -/
def cd (st : FileSystem) (name : String) : Except Err Unit × FileSystem :=
  if name = "" then
    (.ok (), { st with current := st.root, path_to_current := [("", st.root)] })
  else
    match get_node_or_fail st name with
    | .error e => (.error e, st)
    | .ok n =>
        if !isDirN st n then (.error (.not_a_directory name), st)
        else
          match resolve_path st name with
          | (.ok ref, st') =>
              let chain := readChain st' ref
              (.ok (), { st' with path_to_current := chain,
                                  current := (chain.getLastD ("", st'.root)).2 })
          | (.error e, st') => (.error e, st')

/-- FileSystem.cwd. -/
def cwd (st : FileSystem) : String :=
  let s := joinSlash (st.path_to_current.map Prod.fst)
  if s = "" then "/" else s

/-- FileSystem.create_file. -/
def create_file (st : FileSystem) (name : String) : Except Err Nat × FileSystem :=
  match fail_if_node_exists st name with
  | .error e => (.error e, st)
  | .ok _ =>
      match get_directory_or_fail st (parent_path_of name) with
      | .error e => (.error e, st)
      | .ok parent =>
          let (st1, fid) := alloc_file st
          (.ok fid, add_child st1 parent (requested_of name) fid)

/-- FileSystem.touch. -/
def touch (st : FileSystem) (name : String) : Except Err Nat × FileSystem :=
  match get_node st name with
  | some m => (.ok m, st)
  | none =>
      match get_directory_or_fail st (parent_path_of name) with
      | .error e => (.error e, st)
      | .ok parent =>
          let (st1, fid) := alloc_file st
          (.ok fid, add_child st1 parent (requested_of name) fid)

/-- How FileSystem.read_file reports its result: whole contents, or the
character stream produced by FileNode.stream_contents. -/
inductive ReadResult where
  | whole (s : String)
  | streamed (cs : List Char)
  deriving DecidableEq

/-- FileSystem.read_file. -/
def read_file (st : FileSystem) (name : String) (stream : Bool) :
    Except Err ReadResult × FileSystem :=
  match get_node_or_fail st name with
  | .error e => (.error e, st)
  | .ok n =>
      if isDirN st n then (.error (.is_a_directory name), st)
      else if stream then (.ok (.streamed (contentsOf st n).data), st)
      else (.ok (.whole (contentsOf st n)), st)

/-- FileSystem.write_file. -/
def write_file (st : FileSystem) (name contents : String) : Except Err Nat × FileSystem :=
  match get_node st name with
  | some m =>
      if isDirN st m then (.error (.is_a_directory name), st)
      else (.ok m, set_contents st m contents)
  | none =>
      match create_file st name with
      | (.ok fid, st') => (.ok fid, set_contents st' fid contents)
      | (.error e, st') => (.error e, st')

/-- FileSystem.ls (without the JSON details variant, which only formats
timestamps).  An empty name models the no-argument call. -/
def ls (st : FileSystem) (name : String) : Except Err (List String) × FileSystem :=
  let nodeRes := if name = "" then .ok st.current else get_directory_or_fail st name
  match nodeRes with
  | .error e => (.error e, st)
  | .ok n => (.ok ((childrenOf st n).map Prod.fst), st)

/-- FileSystem.ln. -/
def ln (st : FileSystem) (target dest : String) : Except Err Nat × FileSystem :=
  match get_node_or_fail st target with
  | .error e => (.error e, st)
  | .ok target_node =>
      match get_directory_or_fail st (parent_path_of dest) with
      | .error e => (.error e, st)
      | .ok dest_parent =>
          let st1 := inc_links st target_node
          (.ok target_node, add_child st1 dest_parent (requested_of dest) target_node)

/-- FileSystem._create_tree, inner loop. -/
def create_tree_loop : FileSystem → Nat → List String → Except Err Unit × FileSystem
  | st, _, [] => (.ok (), st)
  | st, node, part :: parts =>
      if isFileN st node then (.error (.file_exists part), st)
      else
        match find_child st node part with
        | some existing => create_tree_loop st existing parts
        | none =>
            let (st1, nid) := alloc_dir st node
            create_tree_loop (add_child st1 node part nid) nid parts

/-- FileSystem._create_tree. -/
def create_tree (st : FileSystem) (name : String) : Except Err Unit × FileSystem :=
  let rootRel := startsWithSlash name
  let stripped := if rootRel then dropFirstChar name else name
  create_tree_loop st (if rootRel then st.root else st.current) (splitPath stripped)

/-- FileSystem.mkdir. -/
def mkdir (st : FileSystem) (name : String) (create_intermediates : Bool) :
    Except Err Nat × FileSystem :=
  match fail_if_node_exists st name with
  | .error e => (.error e, st)
  | .ok _ =>
      let pp := parent_path_of name
      let (r, st1) := if create_intermediates then create_tree st pp else (.ok (), st)
      match r with
      | .error e => (.error e, st1)
      | .ok _ =>
          match get_directory_or_fail st1 pp with
          | .error e => (.error e, st1)
          | .ok parent =>
              let (st2, nid) := alloc_dir st1 parent
              (.ok nid, add_child st2 parent (requested_of name) nid)

/-- FileSystem.mv.  The probe _get_node_or_fail(new_name) whose
NoSuchFileOrDirectory is swallowed has no effect and is omitted.  The
working-chain comparison reads both returned chain references after both
resolve calls ran, exactly as the Python comparison of the two returned
list objects does. -/
def mv (st : FileSystem) (old_name new_name : String) : Except Err Nat × FileSystem :=
  match get_node_or_fail st old_name with
  | .error e => (.error e, st)
  | .ok node =>
      match get_directory_or_fail st (parent_path_of old_name) with
      | .error e => (.error e, st)
      | .ok old_parent =>
          match get_directory_or_fail st (parent_path_of new_name) with
          | .error e => (.error e, st)
          | .ok new_parent =>
              match resolve_path st (parent_path_of new_name) with
              | (.error e, st1) => (.error e, st1)
              | (.ok r1, st1) =>
                  match resolve_path st1 (parent_path_of old_name) with
                  | (.error e, st2) => (.error e, st2)
                  | (.ok r2, st2) =>
                      if readChain st2 r1 = readChain st2 r2 ∧
                          requested_of new_name = requested_of old_name then
                        (.ok node, st2)
                      else
                        let st3 := add_child st2 new_parent (requested_of new_name) node
                        match delete_child st3 old_parent (requested_of old_name) with
                        | some (st4, _) => (.ok node, st4)
                        | none => (.error (.key_error (requested_of old_name)), st3)

/-- FileSystem.rm.  Python returns the node popped by delete_child. -/
def rm (st : FileSystem) (name : String) (recursive : Bool) : Except Err Nat × FileSystem :=
  match get_node_or_fail st name with
  | .error e => (.error e, st)
  | .ok node =>
      if isDirN st node && !recursive then (.error (.is_a_directory name), st)
      else
        match get_directory_or_fail st (parent_path_of name) with
        | .error e => (.error e, st)
        | .ok parent =>
            let st1 := dec_links st node
            match delete_child st1 parent (requested_of name) with
            | some (st2, popped) => (.ok popped, st2)
            | none => (.error (.key_error (requested_of name)), st1)

/-! ## FileSystem.find

Stack-based depth-first search.  The Python while loop terminates because
each pushed pair is unvisited and immediately marked visited, so the
number of pops is bounded by the number of (name, node) pairs reachable
through child tables; the fuel below is such a bound.  Python tuples of
(name, node-object) become (String, Nat) pairs; the adjacency dict is
an insertion-ordered association list (keys are unique because only
unvisited pairs are inserted). -/

def find_push (top : String × Nat)
    (acc : List (String × Nat) × List (String × Nat) ×
      List ((String × Nat) × String × Nat))
    (child : String × Nat) :
    List (String × Nat) × List (String × Nat) ×
      List ((String × Nat) × String × Nat) :=
  let (visited, stack, adj) := acc
  if child ∈ visited then (visited, stack, adj)
  else (child :: visited, child :: stack, adj ++ [(child, top)])

def find_loop (st : FileSystem) :
    Nat → List (String × Nat) → List (String × Nat) →
    List ((String × Nat) × String × Nat) →
    List ((String × Nat) × String × Nat)
  | 0, _, _, adj => adj
  | _ + 1, _, [], adj => adj
  | fuel + 1, visited, top :: rest, adj =>
      if isDirN st top.2 then
        let (v', s', a') := (childrenOf st top.2).foldl (find_push top) (visited, rest, adj)
        find_loop st fuel v' s' a'
      else find_loop st fuel visited rest adj

/-- Total number of child-table entries; one more than this bounds the
number of stack pops the search can perform. -/
def total_entries (st : FileSystem) : Nat :=
  (st.nodes.map (fun r =>
    match r.data with
    | .dir ch _ => ch.length
    | .file _ => 0)).sum

def adj_lookup (adj : List ((String × Nat) × String × Nat))
    (k : String × Nat) : Option (String × Nat) :=
  match adj.find? (fun kv => kv.1 = k) with
  | some kv => some kv.2
  | none => none

/-- Path reconstruction: walk the reverse-pointer map back to the search
root, prepending each discovered name.  The chain of reverse pointers is
acyclic, so the adjacency size bounds its length. -/
def build_path (adj : List ((String × Nat) × String × Nat)) :
    Nat → List String → String × Nat → List String
  | 0, path, parent => parent.1 :: path
  | fuel + 1, path, parent =>
      match adj_lookup adj parent with
      | some gp => build_path adj fuel (parent.1 :: path) gp
      | none => parent.1 :: path

/-- FileSystem.find.  An empty relative_to models the absent argument. -/
def find (st : FileSystem) (name : String) (relative_to : String) :
    Except Err (List String) × FileSystem :=
  let startRes := if relative_to = "" then .ok st.current else get_node_or_fail st relative_to
  match startRes with
  | .error e => (.error e, st)
  | .ok start =>
      let startPair : String × Nat := ("", start)
      let adj := find_loop st (total_entries st + 2) [startPair] [startPair] []
      let hits := (adj.filter (fun kv => kv.1.1 = name)).map (fun kv => kv.1)
      let paths := hits.map (fun m =>
        let p0 :=
          match adj_lookup adj m with
          | some parent => build_path adj adj.length [m.1] parent
          | none => [m.1]
        let p1 := if relative_to = "" then p0 else relative_to :: p0
        joinSlash (p1.filter (fun part => part ≠ "")))
      (.ok paths, st)

/-! ## Operation language and a runner

Used to state whole-session properties (link-count invariant): a sequence
of operations applied to a state, required to succeed at every step.  The
okOp side conditions single out steps on which no child-table entry is
overwritten and removals pop the entry that was resolved, which is what
the corrected link-count invariant is conditioned on. -/

inductive Op where
  | cd (name : String)
  | mkdir (name : String) (create_intermediates : Bool)
  | create_file (name : String)
  | touch (name : String)
  | write_file (name contents : String)
  | read_file (name : String)
  | ls (name : String)
  | ln (target dest : String)
  | mv (old_name new_name : String)
  | rm (name : String) (recursive : Bool)
  | find (name relative_to : String)
  deriving DecidableEq

def stepOp (st : FileSystem) : Op → Except Err Unit × FileSystem
  | .cd n => cd st n
  | .mkdir n ci => let (r, st') := mkdir st n ci; (r.map (fun _ => ()), st')
  | .create_file n => let (r, st') := create_file st n; (r.map (fun _ => ()), st')
  | .touch n => let (r, st') := touch st n; (r.map (fun _ => ()), st')
  | .write_file n c => let (r, st') := write_file st n c; (r.map (fun _ => ()), st')
  | .read_file n => let (r, st') := read_file st n false; (r.map (fun _ => ()), st')
  | .ls n => let (r, st') := ls st n; (r.map (fun _ => ()), st')
  | .ln t d => let (r, st') := ln st t d; (r.map (fun _ => ()), st')
  | .mv o n => let (r, st') := mv st o n; (r.map (fun _ => ()), st')
  | .rm n r => let (res, st') := rm st n r; (res.map (fun _ => ()), st')
  | .find n r => let (res, st') := find st n r; (res.map (fun _ => ()), st')

/-- Name not present among the real children of a directory. -/
def fresh_in (st : FileSystem) (p : Nat) (name : String) : Bool :=
  (dictGet (childrenOf st p) name).isNone

def okCreate (st : FileSystem) (n : String) : Bool :=
  match get_directory_or_fail st (parent_path_of n) with
  | .ok p => fresh_in st p (requested_of n)
  | .error _ => true

/-- Side condition for the corrected link-count invariant: the final
child-table insertion of each creating or linking operation targets a
fresh name (no silent overwrite), and each removal pops the entry bound
to the node that was resolved.  Failing resolutions need no condition:
the runner discards failing steps anyway. -/
def okOp (st : FileSystem) : Op → Bool
  | .cd _ => true
  | .read_file _ => true
  | .ls _ => true
  | .find _ _ => true
  | .create_file n => okCreate st n
  | .touch n =>
      match get_node st n with
      | some _ => true
      | none => okCreate st n
  | .write_file n _ =>
      match get_node st n with
      | some _ => true
      | none => okCreate st n
  | .mkdir n ci =>
      let pp := parent_path_of n
      let (r, st1) := if ci then create_tree st pp else (.ok (), st)
      match r with
      | .error _ => true
      | .ok _ =>
          match get_directory_or_fail st1 pp with
          | .ok p => fresh_in st1 p (requested_of n)
          | .error _ => true
  | .ln _ d =>
      match get_directory_or_fail st (parent_path_of d) with
      | .ok p => fresh_in st p (requested_of d)
      | .error _ => true
  | .mv o n =>
      match get_node st o, get_directory_or_fail st (parent_path_of o),
          get_directory_or_fail st (parent_path_of n) with
      | some node, .ok op', .ok np =>
          fresh_in st np (requested_of n) &&
            decide (dictGet (childrenOf st op') (requested_of o) = some node)
      | _, _, _ => true
  | .rm n _ =>
      match get_node st n, get_directory_or_fail st (parent_path_of n) with
      | some node, .ok p => decide (dictGet (childrenOf st p) (requested_of n) = some node)
      | _, _ => true

/-- Run a sequence of operations from a state; every step must succeed
and satisfy the okOp side condition. -/
def runSafe : FileSystem → List Op → Option FileSystem
  | st, [] => some st
  | st, op :: ops =>
      if okOp st op then
        match stepOp st op with
        | (.ok _, st') => runSafe st' ops
        | (.error _, _) => none
      else none

/-! ## Invariant predicates -/

/-- In a child table, the number of entries referencing a given inode. -/
def countIn (l : List (String × Nat)) (id : Nat) : Nat :=
  (l.filter (fun e => e.2 = id)).length

/-- Number of real child-table entries across the whole arena that
reference a given inode (reserved self/parent references not counted). -/
def entry_count (st : FileSystem) (id : Nat) : Nat :=
  (st.nodes.map (fun r => countIn (childEntries r.data) id)).sum

/-- Well-formed ids: current, root, chain entries, every stored child id
and every stored parent back-reference stay inside the arena, and the
session chain is never empty. -/
def WfIds (st : FileSystem) : Prop :=
  st.current < st.nodes.length ∧ st.root < st.nodes.length ∧
  st.path_to_current ≠ [] ∧
  (∀ e ∈ st.path_to_current, e.2 < st.nodes.length) ∧
  (∀ r ∈ st.nodes, parentIdx r.data < st.nodes.length ∧
    ∀ e ∈ childEntries r.data, e.2 < st.nodes.length)

instance (st : FileSystem) : Decidable (WfIds st) := by
  unfold WfIds; infer_instance

/-- The link-count bookkeeping: every inode except the root has its links
field equal to the number of real directory entries referencing it. -/
def LinksOk (st : FileSystem) : Prop :=
  ∀ i < st.nodes.length, i ≠ st.root → (getRec st i).links = (entry_count st i : Int)

instance (st : FileSystem) : Decidable (LinksOk st) := by
  unfold LinksOk; infer_instance

def Good (st : FileSystem) : Prop := WfIds st ∧ LinksOk st

instance (st : FileSystem) : Decidable (Good st) := by
  unfold Good; infer_instance

/-! ## Concrete sessions used by the individual claims -/

/-- Fold a list of operations over the fresh file system, keeping the
final state regardless of per-operation results. -/
def run_ops (ops : List Op) : FileSystem :=
  ops.foldl (fun st op => (stepOp st op).2) FileSystem.fresh

def st_ab : FileSystem := run_ops [.mkdir "a" false, .mkdir "b" false, .touch "a/f"]

def st_c2 : FileSystem := (create_file FileSystem.fresh "f").2

def st_c4 : FileSystem := run_ops [.touch "a", .touch "b"]

def st_c4w : FileSystem := run_ops [.touch "a", .ln "a" "b"]

def st_c6 : FileSystem := run_ops [.touch "f", .ln "f" "."]

def st_c7 : FileSystem :=
  run_ops [.mkdir "a/b/c/d" true, .create_file "a/b/c/d/e", .mkdir "a/b/e" false]

def st_c8 : FileSystem := run_ops [.mkdir "d" false, .cd "d"]

def st_c10 : FileSystem := (mkdir FileSystem.fresh "a" false).2

def c4_witness_ops : List Op :=
  [.mkdir "d" false, .touch "a", .ln "a" "d/b", .write_file "a" "hi", .rm "a" false]

def c4_witness_state : FileSystem :=
  (runSafe FileSystem.fresh c4_witness_ops).getD FileSystem.fresh

def c7_build_ops : List Op :=
  [.mkdir "a/b/c/d" true, .create_file "a/b/c/d/e", .mkdir "a/b/e" false]

/-! ## List and dict lemmas -/

lemma getD_ge {α : Type} (d : α) : ∀ (l : List α) (i : Nat), l.length ≤ i → l.getD i d = d
  | [], _, _ => rfl
  | _ :: l, i + 1, h => getD_ge d l i (Nat.le_of_succ_le_succ h)

lemma set_of_ge {α : Type} : ∀ (l : List α) (i : Nat) (x : α), l.length ≤ i → l.set i x = l
  | [], _, _, _ => rfl
  | _ :: _, 0, _, h => absurd h (by simp)
  | a :: l, i + 1, x, h => by
      simp only [List.set]
      rw [set_of_ge l i x (Nat.le_of_succ_le_succ h)]

lemma getD_set_self {α : Type} (d : α) :
    ∀ (l : List α) (i : Nat) (x : α), i < l.length → (l.set i x).getD i d = x
  | _ :: _, 0, _, _ => rfl
  | _ :: l, i + 1, x, h => getD_set_self d l i x (Nat.lt_of_succ_lt_succ h)

lemma getD_set_ne {α : Type} (d : α) :
    ∀ (l : List α) (i j : Nat) (x : α), i ≠ j → (l.set i x).getD j d = l.getD j d
  | [], _, _, _, _ => rfl
  | _ :: _, 0, 0, _, h => absurd rfl h
  | _ :: _, 0, _ + 1, _, _ => rfl
  | _ :: _, _ + 1, 0, _, _ => rfl
  | _ :: l, i + 1, j + 1, x, h =>
      getD_set_ne d l i j x (fun hij => h (by rw [hij]))

lemma getD_append_lt {α : Type} (d : α) :
    ∀ (l l2 : List α) (i : Nat), i < l.length → (l ++ l2).getD i d = l.getD i d
  | _ :: _, _, 0, _ => rfl
  | _ :: l, l2, i + 1, h => getD_append_lt d l l2 i (Nat.lt_of_succ_lt_succ h)

lemma getD_append_len {α : Type} (d : α) :
    ∀ (l : List α) (x : α), (l ++ [x]).getD l.length d = x
  | [], _ => rfl
  | _ :: l, x => getD_append_len d l x

lemma getD_mem {α : Type} (d : α) :
    ∀ (l : List α) (i : Nat), i < l.length → l.getD i d ∈ l
  | a :: _, 0, _ => List.mem_cons_self a _
  | _ :: l, i + 1, h => List.mem_cons_of_mem _ (getD_mem d l i (Nat.lt_of_succ_lt_succ h))

lemma sum_map_set {α : Type} (f : α → Nat) (d : α) :
    ∀ (l : List α) (i : Nat) (x : α), i < l.length →
      ((l.set i x).map f).sum + f (l.getD i d) = (l.map f).sum + f x
  | a :: l, 0, x, _ => by simp [List.set]; omega
  | a :: l, i + 1, x, h => by
      simp only [List.set, List.map_cons, List.sum_cons, List.getD_cons_succ]
      have := sum_map_set f d l i x (Nat.lt_of_succ_lt_succ h)
      omega

lemma dictGet_mem : ∀ (l : List (String × Nat)) (k : String) (v : Nat),
    dictGet l k = some v → (k, v) ∈ l := by
  intro l k v h
  induction l with
  | nil => simp [dictGet] at h
  | cons a rest ih =>
      by_cases hk : a.1 = k
      · simp only [dictGet, hk, if_pos rfl] at h
        cases h
        have ha : (k, a.2) = a := by rw [← hk]
        rw [ha]
        exact List.mem_cons_self a rest
      · simp only [dictGet, hk, if_neg hk] at h
        exact List.mem_cons_of_mem _ (ih h)

lemma dictInsert_fresh : ∀ (l : List (String × Nat)) (k : String) (v : Nat),
    dictGet l k = none → dictInsert l k v = l ++ [(k, v)] := by
  intro l k v h
  induction l with
  | nil => rfl
  | cons a rest ih =>
      by_cases hk : a.1 = k
      · simp [dictGet, hk] at h
      · simp only [dictGet, if_neg hk] at h
        simp only [dictInsert, if_neg hk, List.cons_append]
        rw [ih h]

lemma dictGet_insert_ne : ∀ (l : List (String × Nat)) (k key : String) (v : Nat),
    key ≠ k → dictGet (dictInsert l k v) key = dictGet l key := by
  intro l k key v hne
  induction l with
  | nil => simp [dictInsert, dictGet, Ne.symm hne]
  | cons a rest ih =>
      by_cases hk : a.1 = k
      · simp only [dictInsert, if_pos hk, dictGet]
        by_cases hkey : a.1 = key
        · rw [hk] at hkey
          exact absurd hkey.symm hne
        · simp [hkey]
      · simp only [dictInsert, if_neg hk, dictGet]
        by_cases hkey : a.1 = key
        · simp [hkey]
        · simp [hkey, ih]

lemma countIn_append (l1 l2 : List (String × Nat)) (id : Nat) :
    countIn (l1 ++ l2) id = countIn l1 id + countIn l2 id := by
  simp [countIn, List.filter_append]

lemma countIn_singleton (k : String) (v : Nat) (id : Nat) :
    countIn [(k, v)] id = if v = id then 1 else 0 := by
  by_cases h : v = id <;> simp [countIn, h]

lemma dictPop_spec : ∀ (l : List (String × Nat)) (k : String) (v : Nat),
    dictGet l k = some v →
    ∃ l', dictPop l k = some (v, l') ∧
      (∀ id, countIn l id = countIn l' id + (if v = id then 1 else 0)) ∧
      (∀ e ∈ l', e ∈ l) := by
  intro l k v h
  induction l with
  | nil => simp [dictGet] at h
  | cons a rest ih =>
      by_cases hk : a.1 = k
      · simp only [dictGet, if_pos hk] at h
        cases h
        refine ⟨rest, ?_, ?_, ?_⟩
        · simp [dictPop, hk]
        · intro id
          have : a :: rest = [a] ++ rest := rfl
          rw [this, countIn_append]
          have : [a] = [(a.1, a.2)] := rfl
          rw [this, countIn_singleton]
          omega
        · intro e he
          exact List.mem_cons_of_mem _ he
      · simp only [dictGet, if_neg hk] at h
        obtain ⟨l', hpop, hcount, hsub⟩ := ih h
        refine ⟨a :: l', ?_, ?_, ?_⟩
        · simp [dictPop, hk, hpop]
        · intro id
          have h1 : a :: rest = [a] ++ rest := rfl
          have h2 : a :: l' = [a] ++ l' := rfl
          rw [h1, h2, countIn_append, countIn_append]
          have := hcount id
          omega
        · intro e he
          rcases List.mem_cons.mp he with he | he
          · exact he ▸ List.mem_cons_self a rest
          · exact List.mem_cons_of_mem _ (hsub e he)

lemma mem_dictInsert : ∀ (l : List (String × Nat)) (k : String) (v : Nat) (e),
    e ∈ dictInsert l k v → e ∈ l ∨ e = (k, v) := by
  intro l k v e he
  induction l with
  | nil => simp [dictInsert] at he; right; exact he
  | cons a rest ih =>
      by_cases hk : a.1 = k
      · simp only [dictInsert, if_pos hk] at he
        rcases List.mem_cons.mp he with he | he
        · right; rw [he, ← hk]
        · left; exact List.mem_cons_of_mem _ he
      · simp only [dictInsert, if_neg hk] at he
        rcases List.mem_cons.mp he with he | he
        · left; rw [he]; exact List.mem_cons_self a rest
        · rcases ih he with h | h
          · left; exact List.mem_cons_of_mem _ h
          · right; exact h

/-! ## Arena frame lemmas -/

lemma getRec_setRec_self (st : FileSystem) (i : Nat) (r : INodeRec)
    (h : i < st.nodes.length) : getRec (setRec st i r) i = r := by
  simp only [getRec, setRec]
  exact getD_set_self default st.nodes i r h

lemma getRec_setRec_ne (st : FileSystem) (i j : Nat) (r : INodeRec)
    (h : i ≠ j) : getRec (setRec st i r) j = getRec st j := by
  simp only [getRec, setRec]
  exact getD_set_ne default st.nodes i j r h

lemma setRec_ge (st : FileSystem) (i : Nat) (r : INodeRec)
    (h : st.nodes.length ≤ i) : setRec st i r = st := by
  simp only [setRec, set_of_ge st.nodes i r h]

lemma length_setRec (st : FileSystem) (i : Nat) (r : INodeRec) :
    (setRec st i r).nodes.length = st.nodes.length := by
  simp [setRec]

lemma entry_count_setRec (st : FileSystem) (i : Nat) (r : INodeRec) (id : Nat)
    (h : i < st.nodes.length) :
    entry_count (setRec st i r) id + countIn (childEntries (getRec st i).data) id =
      entry_count st id + countIn (childEntries r.data) id := by
  simp only [entry_count, setRec, getRec]
  exact sum_map_set (fun rec => countIn (childEntries rec.data) id) default st.nodes i r h

lemma getRec_ge (st : FileSystem) (i : Nat) (h : st.nodes.length ≤ i) :
    getRec st i = default := by
  simp only [getRec]
  exact getD_ge default st.nodes i h

lemma isDirN_lt (st : FileSystem) (i : Nat) (h : isDirN st i = true) :
    i < st.nodes.length := by
  by_contra hge
  rw [isDirN, getRec_ge st i (Nat.le_of_not_lt hge)] at h
  simp [default] at h

lemma isDirN_dir (st : FileSystem) (i : Nat) (h : isDirN st i = true) :
    ∃ ch p, (getRec st i).data = .dir ch p := by
  unfold isDirN at h
  cases hd : (getRec st i).data with
  | file c => rw [hd] at h; cases h
  | dir ch p => exact ⟨ch, p, rfl⟩

lemma childrenOf_lt (st : FileSystem) (p : Nat) (name : String) (v : Nat)
    (h : dictGet (childrenOf st p) name = some v) : p < st.nodes.length := by
  by_contra hge
  rw [childrenOf, getRec_ge st p (Nat.le_of_not_lt hge)] at h
  simp [default, childEntries, dictGet] at h

lemma childrenOf_dir (st : FileSystem) (p : Nat) (name : String) (v : Nat)
    (h : dictGet (childrenOf st p) name = some v) :
    ∃ ch par, (getRec st p).data = .dir ch par ∧ dictGet ch name = some v := by
  cases hd : (getRec st p).data with
  | file c =>
      rw [childrenOf, hd] at h
      simp [childEntries, dictGet] at h
  | dir ch par =>
      rw [childrenOf, hd] at h
      exact ⟨ch, par, rfl, h⟩

/-- All the facts needed about a successful add_child into a directory. -/
lemma add_child_spec (st : FileSystem) (p : Nat) (name : String) (c : Nat)
    (ch : List (String × Nat)) (par : Nat)
    (hd : (getRec st p).data = .dir ch par) :
    p < st.nodes.length →
    (add_child st p name c).nodes.length = st.nodes.length ∧
    (add_child st p name c).current = st.current ∧
    (add_child st p name c).root = st.root ∧
    (add_child st p name c).path_to_current = st.path_to_current ∧
    (∀ q, (getRec (add_child st p name c) q).links = (getRec st q).links) ∧
    (getRec (add_child st p name c) p).data = .dir (dictInsert ch name c) par ∧
    (∀ q, q ≠ p → getRec (add_child st p name c) q = getRec st q) ∧
    (dictGet ch name = none →
      ∀ id, entry_count (add_child st p name c) id =
        entry_count st id + (if c = id then 1 else 0)) := by
  intro hp
  have heq : add_child st p name c =
      setRec st p ⟨.dir (dictInsert ch name c) par, (getRec st p).links⟩ := by
    unfold add_child
    rw [hd]
  rw [heq]
  refine ⟨length_setRec _ _ _, rfl, rfl, rfl, ?_, ?_, ?_, ?_⟩
  · intro q
    by_cases hq : q = p
    · subst hq
      rw [getRec_setRec_self _ _ _ hp]
    · rw [getRec_setRec_ne _ _ _ _ (fun h => hq h.symm)]
  · rw [getRec_setRec_self _ _ _ hp]
  · intro q hq
    exact getRec_setRec_ne _ _ _ _ (fun h => hq h.symm)
  · intro hfresh id
    have hcnt := entry_count_setRec st p
      ⟨.dir (dictInsert ch name c) par, (getRec st p).links⟩ id hp
    rw [hd] at hcnt
    simp only [childEntries] at hcnt
    rw [dictInsert_fresh ch name c hfresh, countIn_append, countIn_singleton] at hcnt
    rw [dictInsert_fresh ch name c hfresh]
    omega

/-- All the facts needed about delete_child popping a resolved entry. -/
lemma delete_child_spec (st : FileSystem) (p : Nat) (name : String) (v : Nat)
    (h : dictGet (childrenOf st p) name = some v) :
    ∃ st', delete_child st p name = some (st', v) ∧
      st'.nodes.length = st.nodes.length ∧
      st'.current = st.current ∧
      st'.root = st.root ∧
      st'.path_to_current = st.path_to_current ∧
      (∀ q, (getRec st' q).links = (getRec st q).links) ∧
      (∀ id, entry_count st id = entry_count st' id + (if v = id then 1 else 0)) ∧
      (∀ e ∈ childEntries (getRec st' p).data, e ∈ childEntries (getRec st p).data) ∧
      (∀ q, q ≠ p → getRec st' q = getRec st q) ∧
      parentIdx (getRec st' p).data = parentIdx (getRec st p).data := by
  have hp := childrenOf_lt st p name v h
  obtain ⟨ch, par, hd, hget⟩ := childrenOf_dir st p name v h
  obtain ⟨ch', hpop, hcount, hsub⟩ := dictPop_spec ch name v hget
  refine ⟨setRec st p ⟨.dir ch' par, (getRec st p).links⟩, ?_, length_setRec _ _ _,
    rfl, rfl, rfl, ?_, ?_, ?_, ?_, ?_⟩
  · simp only [delete_child, hd, hpop]
  · intro q
    by_cases hq : q = p
    · subst hq; rw [getRec_setRec_self _ _ _ hp]
    · rw [getRec_setRec_ne _ _ _ _ (fun hh => hq hh.symm)]
  · intro id
    have hcnt := entry_count_setRec st p ⟨.dir ch' par, (getRec st p).links⟩ id hp
    rw [hd] at hcnt
    simp only [childEntries] at hcnt
    have := hcount id
    omega
  · intro e he
    rw [getRec_setRec_self _ _ _ hp] at he
    simp only [childEntries] at he
    rw [hd]
    simp only [childEntries]
    exact hsub e he
  · intro q hq
    exact getRec_setRec_ne _ _ _ _ (fun hh => hq hh.symm)
  · rw [getRec_setRec_self _ _ _ hp, hd]
    simp [parentIdx]

lemma inc_links_spec (st : FileSystem) (i : Nat) (h : i < st.nodes.length) :
    (inc_links st i).nodes.length = st.nodes.length ∧
    (inc_links st i).current = st.current ∧
    (inc_links st i).root = st.root ∧
    (inc_links st i).path_to_current = st.path_to_current ∧
    (∀ q, (getRec (inc_links st i) q).data = (getRec st q).data) ∧
    (getRec (inc_links st i) i).links = (getRec st i).links + 1 ∧
    (∀ q, q ≠ i → (getRec (inc_links st i) q).links = (getRec st q).links) ∧
    (∀ id, entry_count (inc_links st i) id = entry_count st id) := by
  unfold inc_links
  refine ⟨length_setRec _ _ _, rfl, rfl, rfl, ?_, ?_, ?_, ?_⟩
  · intro q
    by_cases hq : q = i
    · subst hq; rw [getRec_setRec_self _ _ _ h]
    · rw [getRec_setRec_ne _ _ _ _ (fun hh => hq hh.symm)]
  · rw [getRec_setRec_self _ _ _ h]
  · intro q hq
    rw [getRec_setRec_ne _ _ _ _ (fun hh => hq hh.symm)]
  · intro id
    have hcnt := entry_count_setRec st i ⟨(getRec st i).data, (getRec st i).links + 1⟩ id h
    simp only at hcnt
    omega

lemma dec_links_spec (st : FileSystem) (i : Nat) (h : i < st.nodes.length) :
    (dec_links st i).nodes.length = st.nodes.length ∧
    (dec_links st i).current = st.current ∧
    (dec_links st i).root = st.root ∧
    (dec_links st i).path_to_current = st.path_to_current ∧
    (∀ q, (getRec (dec_links st i) q).data = (getRec st q).data) ∧
    (getRec (dec_links st i) i).links = (getRec st i).links - 1 ∧
    (∀ q, q ≠ i → (getRec (dec_links st i) q).links = (getRec st q).links) ∧
    (∀ id, entry_count (dec_links st i) id = entry_count st id) := by
  unfold dec_links
  refine ⟨length_setRec _ _ _, rfl, rfl, rfl, ?_, ?_, ?_, ?_⟩
  · intro q
    by_cases hq : q = i
    · subst hq; rw [getRec_setRec_self _ _ _ h]
    · rw [getRec_setRec_ne _ _ _ _ (fun hh => hq hh.symm)]
  · rw [getRec_setRec_self _ _ _ h]
  · intro q hq
    rw [getRec_setRec_ne _ _ _ _ (fun hh => hq hh.symm)]
  · intro id
    have hcnt := entry_count_setRec st i ⟨(getRec st i).data, (getRec st i).links - 1⟩ id h
    simp only at hcnt
    omega

lemma set_contents_spec (st : FileSystem) (i : Nat) (c : String) :
    (set_contents st i c).nodes.length = st.nodes.length ∧
    (set_contents st i c).current = st.current ∧
    (set_contents st i c).root = st.root ∧
    (set_contents st i c).path_to_current = st.path_to_current ∧
    (∀ q, (getRec (set_contents st i c) q).links = (getRec st q).links) ∧
    (∀ q, childEntries (getRec (set_contents st i c) q).data =
      childEntries (getRec st q).data) ∧
    (∀ q, parentIdx (getRec (set_contents st i c) q).data =
      parentIdx (getRec st q).data) ∧
    (∀ id, entry_count (set_contents st i c) id = entry_count st id) := by
  cases hd : (getRec st i).data with
  | file cts =>
    by_cases h : i < st.nodes.length
    · have heq : set_contents st i c = setRec st i ⟨.file c, (getRec st i).links⟩ := by
        unfold set_contents
        rw [hd]
      rw [heq]
      refine ⟨length_setRec _ _ _, rfl, rfl, rfl, ?_, ?_, ?_, ?_⟩
      · intro q
        by_cases hq : q = i
        · subst hq; rw [getRec_setRec_self _ _ _ h]
        · rw [getRec_setRec_ne _ _ _ _ (fun hh => hq hh.symm)]
      · intro q
        by_cases hq : q = i
        · subst hq
          rw [getRec_setRec_self _ _ _ h, hd]
          simp [childEntries]
        · rw [getRec_setRec_ne _ _ _ _ (fun hh => hq hh.symm)]
      · intro q
        by_cases hq : q = i
        · subst hq
          rw [getRec_setRec_self _ _ _ h, hd]
          simp [parentIdx]
        · rw [getRec_setRec_ne _ _ _ _ (fun hh => hq hh.symm)]
      · intro id
        have hcnt := entry_count_setRec st i ⟨.file c, (getRec st i).links⟩ id h
        rw [hd] at hcnt
        simp only [childEntries] at hcnt
        omega
    · have heq : set_contents st i c = setRec st i ⟨.file c, (getRec st i).links⟩ := by
        unfold set_contents
        rw [hd]
      rw [heq, setRec_ge st i _ (Nat.le_of_not_lt h)]
      exact ⟨rfl, rfl, rfl, rfl, fun _ => rfl, fun _ => rfl, fun _ => rfl, fun _ => rfl⟩
  | dir ch par =>
    have heq : set_contents st i c = st := by
      unfold set_contents
      rw [hd]
    rw [heq]
    exact ⟨rfl, rfl, rfl, rfl, fun _ => rfl, fun _ => rfl, fun _ => rfl, fun _ => rfl⟩

lemma alloc_spec (st : FileSystem) (r : INodeRec) (hch : childEntries r.data = []) :
    ({ st with nodes := st.nodes ++ [r] } : FileSystem).nodes.length = st.nodes.length + 1 ∧
    (∀ q, q < st.nodes.length →
      getRec ({ st with nodes := st.nodes ++ [r] }) q = getRec st q) ∧
    getRec ({ st with nodes := st.nodes ++ [r] }) st.nodes.length = r ∧
    (∀ id, entry_count ({ st with nodes := st.nodes ++ [r] }) id = entry_count st id) := by
  refine ⟨by simp, ?_, ?_, ?_⟩
  · intro q hq
    simp only [getRec]
    exact getD_append_lt default st.nodes [r] q hq
  · simp only [getRec]
    exact getD_append_len default st.nodes r
  · intro id
    simp only [entry_count, List.map_append, List.sum_append, List.map_cons, List.map_nil,
      List.sum_cons, List.sum_nil, hch]
    simp [countIn]

/-! ## Good-state preservation for the primitive mutation patterns -/

lemma forall_mem_iff_getD {α : Type} (d : α) :
    ∀ (l : List α) (P : α → Prop), (∀ r ∈ l, P r) ↔ ∀ q < l.length, P (l.getD q d) := by
  intro l P
  constructor
  · intro h q hq
    exact h _ (getD_mem d l q hq)
  · intro h r hr
    induction l with
    | nil => cases hr
    | cons a rest ih =>
        rcases List.mem_cons.mp hr with he | he
        · subst he
          exact h 0 (Nat.succ_pos _)
        · exact ih (fun q hq => h (q + 1) (Nat.succ_lt_succ hq)) he

lemma countIn_eq_zero (l : List (String × Nat)) (id : Nat)
    (h : ∀ e ∈ l, e.2 ≠ id) : countIn l id = 0 := by
  induction l with
  | nil => rfl
  | cons a rest ih =>
      have ha := h a (List.mem_cons_self a rest)
      simp only [countIn, List.filter]
      rw [decide_eq_false ha]
      exact ih (fun e he => h e (List.mem_cons_of_mem _ he))

/-- In a well-formed state no stored entry can reference an id at or
beyond the arena size, so such ids have entry count zero. -/
lemma sum_countIn_zero : ∀ (l : List INodeRec) (id : Nat),
    (∀ r ∈ l, ∀ e ∈ childEntries r.data, e.2 ≠ id) →
    (l.map (fun r => countIn (childEntries r.data) id)).sum = 0 := by
  intro l id h
  induction l with
  | nil => rfl
  | cons a rest ih =>
      simp only [List.map_cons, List.sum_cons]
      rw [countIn_eq_zero (childEntries a.data) id (h a (List.mem_cons_self a rest)),
        ih (fun r hr => h r (List.mem_cons_of_mem _ hr))]

/-- In a well-formed state no stored entry can reference an id at or
beyond the arena size, so such ids have entry count zero. -/
lemma entry_count_zero_of_ge (st : FileSystem) (id : Nat) (hwf : WfIds st)
    (hge : st.nodes.length ≤ id) : entry_count st id = 0 := by
  unfold entry_count
  apply sum_countIn_zero
  intro r hr e he
  have := (hwf.2.2.2.2 r hr).2 e he
  omega

/-- The record component of WfIds, phrased over indices. -/
lemma wf_rec_idx (st : FileSystem) (hwf : WfIds st) :
    ∀ q, q < st.nodes.length → parentIdx (getRec st q).data < st.nodes.length ∧
      ∀ e ∈ childEntries (getRec st q).data, e.2 < st.nodes.length := by
  intro q hq
  exact hwf.2.2.2.2 _ (getD_mem default st.nodes q hq)

/-- Rebuild WfIds for a state whose session fields match a well-formed
state and whose records are bounded pointwise. -/
lemma wfIds_of (st st' : FileSystem) (hwf : WfIds st)
    (hcur : st'.current = st.current) (hroot : st'.root = st.root)
    (hpath : st'.path_to_current = st.path_to_current)
    (hlen : st.nodes.length ≤ st'.nodes.length)
    (hrec : ∀ q, q < st'.nodes.length →
      parentIdx (getRec st' q).data < st'.nodes.length ∧
      ∀ e ∈ childEntries (getRec st' q).data, e.2 < st'.nodes.length) : WfIds st' := by
  obtain ⟨hc, hr, hnemp, hp, -⟩ := hwf
  refine ⟨?_, ?_, ?_, ?_, ?_⟩
  · rw [hcur]; omega
  · rw [hroot]; omega
  · rw [hpath]; exact hnemp
  · intro e he
    rw [hpath] at he
    have := hp e he
    omega
  · rw [forall_mem_iff_getD default]
    exact hrec

/-- Allocating a fresh childless inode and binding it under a fresh name
in a directory preserves Good.  Covers create_file, touch, both mkdir
insertions and every _create_tree insertion. -/
lemma good_alloc_add (st st1 stA : FileSystem) (p : Nat) (name : String) (r : INodeRec)
    (hg : Good st) (hdir : isDirN st p = true)
    (hfresh : dictGet (childrenOf st p) name = none)
    (hch : childEntries r.data = []) (hlk : r.links = 1)
    (hpar : parentIdx r.data < st.nodes.length + 1)
    (e1 : st1 = { st with nodes := st.nodes ++ [r] })
    (e2 : stA = add_child st1 p name st.nodes.length) :
    Good stA ∧ stA.current = st.current ∧ stA.root = st.root ∧
    stA.path_to_current = st.path_to_current ∧
    stA.nodes.length = st.nodes.length + 1 ∧
    getRec stA st.nodes.length = r := by
  have hwf : WfIds st := hg.1
  have hlinks : LinksOk st := hg.2
  have hp := isDirN_lt st p hdir
  obtain ⟨ch, par, hd⟩ := isDirN_dir st p hdir
  obtain ⟨hlen1, hold1, hnew1, hcnt1⟩ := alloc_spec st r hch
  rw [← e1] at hlen1 hold1 hnew1 hcnt1
  have hcur1 : st1.current = st.current := by rw [e1]
  have hroot1 : st1.root = st.root := by rw [e1]
  have hpath1 : st1.path_to_current = st.path_to_current := by rw [e1]
  have hd1 : (getRec st1 p).data = .dir ch par := by rw [hold1 p hp, hd]
  have hp1 : p < st1.nodes.length := by omega
  obtain ⟨hlen2, hcur2, hroot2, hpath2, hlks2, hrecp2, hrecne2, hcnt2⟩ :=
    add_child_spec st1 p name st.nodes.length ch par hd1 hp1
  rw [← e2] at hlen2 hcur2 hroot2 hpath2 hlks2 hrecp2 hrecne2 hcnt2
  have hfresh1 : dictGet ch name = none := by
    rw [childrenOf, hd] at hfresh
    simpa [childEntries] using hfresh
  have hlenA : stA.nodes.length = st.nodes.length + 1 := by omega
  have hnewA : getRec stA st.nodes.length = r := by
    rw [hrecne2 st.nodes.length (by omega), hnew1]
  have hcntA : ∀ id, entry_count stA id =
      entry_count st id + (if st.nodes.length = id then 1 else 0) := by
    intro id
    rw [hcnt2 hfresh1 id, hcnt1 id]
  refine ⟨⟨?_, ?_⟩, by rw [hcur2, hcur1], by rw [hroot2, hroot1],
    by rw [hpath2, hpath1], hlenA, hnewA⟩
  · apply wfIds_of st stA hwf (by rw [hcur2, hcur1]) (by rw [hroot2, hroot1])
      (by rw [hpath2, hpath1]) (by omega)
    intro q hq
    by_cases hqp : q = p
    · subst hqp
      rw [hrecp2]
      constructor
      · simp only [parentIdx]
        have hw := (wf_rec_idx st hwf q hp).1
        rw [hd] at hw
        simp only [parentIdx] at hw
        omega
      · simp only [childEntries]
        intro e he
        rcases mem_dictInsert ch name st.nodes.length e he with hmem | heq
        · have hw := (wf_rec_idx st hwf q hp).2
          rw [hd] at hw
          simp only [childEntries] at hw
          have := hw e hmem
          omega
        · rw [heq]
          show st.nodes.length < stA.nodes.length
          omega
    · by_cases hqn : q = st.nodes.length
      · subst hqn
        rw [hnewA, hch]
        refine ⟨by omega, ?_⟩
        intro e he
        cases he
      · have hqlt : q < st.nodes.length := by omega
        have hrq : getRec stA q = getRec st q := by
          rw [hrecne2 q hqp, hold1 q hqlt]
        rw [hrq]
        have hw := wf_rec_idx st hwf q hqlt
        exact ⟨by omega, fun e he => by have := hw.2 e he; omega⟩
  · intro i hi hiroot
    rw [hroot2, hroot1] at hiroot
    by_cases hin : i = st.nodes.length
    · have hge : st.nodes.length ≤ i := by omega
      rw [hcntA i, entry_count_zero_of_ge st i hwf hge, if_pos hin.symm]
      have hl : (getRec stA i).links = r.links := by rw [hin, hnewA]
      rw [hl, hlk]
      simp
    · have hilt : i < st.nodes.length := by omega
      have hl : (getRec stA i).links = (getRec st i).links := by
        rw [hlks2 i, hold1 i hilt]
      rw [hl, hcntA i, if_neg (fun hh => hin hh.symm), hlinks i hilt hiroot]
      simp

/-- Incrementing the link count of an existing node and binding it under
a fresh name in a directory preserves Good: the ln pattern. -/
lemma good_link_add (st stA : FileSystem) (p : Nat) (name : String) (tgt : Nat)
    (hg : Good st) (hdir : isDirN st p = true)
    (hfresh : dictGet (childrenOf st p) name = none)
    (htgt : tgt < st.nodes.length)
    (e2 : stA = add_child (inc_links st tgt) p name tgt) :
    Good stA ∧ stA.current = st.current ∧ stA.root = st.root ∧
    stA.path_to_current = st.path_to_current ∧ stA.nodes.length = st.nodes.length := by
  have hwf : WfIds st := hg.1
  have hlinks : LinksOk st := hg.2
  have hp := isDirN_lt st p hdir
  obtain ⟨ch, par, hd⟩ := isDirN_dir st p hdir
  obtain ⟨hlen1, hcur1, hroot1, hpath1, hdata1, hself1, hne1, hcnt1⟩ :=
    inc_links_spec st tgt htgt
  have hd1 : (getRec (inc_links st tgt) p).data = .dir ch par := by rw [hdata1 p, hd]
  have hp1 : p < (inc_links st tgt).nodes.length := by omega
  obtain ⟨hlen2, hcur2, hroot2, hpath2, hlks2, hrecp2, hrecne2, hcnt2⟩ :=
    add_child_spec (inc_links st tgt) p name tgt ch par hd1 hp1
  rw [← e2] at hlen2 hcur2 hroot2 hpath2 hlks2 hrecp2 hrecne2 hcnt2
  have hfresh1 : dictGet ch name = none := by
    rw [childrenOf, hd] at hfresh
    simpa [childEntries] using hfresh
  have hlenA : stA.nodes.length = st.nodes.length := by omega
  have hcntA : ∀ id, entry_count stA id = entry_count st id + (if tgt = id then 1 else 0) := by
    intro id
    rw [hcnt2 hfresh1 id, hcnt1 id]
  refine ⟨⟨?_, ?_⟩, by rw [hcur2, hcur1], by rw [hroot2, hroot1],
    by rw [hpath2, hpath1], hlenA⟩
  · apply wfIds_of st stA hwf (by rw [hcur2, hcur1]) (by rw [hroot2, hroot1])
      (by rw [hpath2, hpath1]) (by omega)
    intro q hq
    by_cases hqp : q = p
    · subst hqp
      rw [hrecp2]
      constructor
      · simp only [parentIdx]
        have hw := (wf_rec_idx st hwf q hp).1
        rw [hd] at hw
        simp only [parentIdx] at hw
        omega
      · simp only [childEntries]
        intro e he
        rcases mem_dictInsert ch name tgt e he with hmem | heq
        · have hw := (wf_rec_idx st hwf q hp).2
          rw [hd] at hw
          simp only [childEntries] at hw
          have := hw e hmem
          omega
        · rw [heq]
          show tgt < stA.nodes.length
          omega
    · have hqlt : q < st.nodes.length := by omega
      have hdq : (getRec stA q).data = (getRec st q).data := by
        rw [hrecne2 q hqp, hdata1 q]
      rw [hdq]
      have hw := wf_rec_idx st hwf q hqlt
      exact ⟨by omega, fun e he => by have := hw.2 e he; omega⟩
  · intro i hi hiroot
    rw [hroot2, hroot1] at hiroot
    have hilt : i < st.nodes.length := by omega
    by_cases hit : i = tgt
    · subst hit
      have hl : (getRec stA i).links = (getRec st i).links + 1 := by
        rw [hlks2 i, hself1]
      rw [hl, hcntA i, if_pos rfl, hlinks i hilt hiroot]
      push_cast
      ring
    · have hl : (getRec stA i).links = (getRec st i).links := by
        rw [hlks2 i, hne1 i (fun hh => hit hh)]
      rw [hl, hcntA i, if_neg (fun hh => hit hh.symm), hlinks i hilt hiroot]
      simp

/-- Decrementing the link count of the node bound under a name and then
popping that entry preserves Good: the rm pattern. -/
lemma good_remove (st : FileSystem) (p : Nat) (name : String) (v : Nat)
    (hg : Good st) (hbind : dictGet (childrenOf st p) name = some v) :
    ∃ st2, delete_child (dec_links st v) p name = some (st2, v) ∧ Good st2 ∧
      st2.current = st.current ∧ st2.root = st.root ∧
      st2.path_to_current = st.path_to_current ∧
      st2.nodes.length = st.nodes.length := by
  have hwf : WfIds st := hg.1
  have hlinks : LinksOk st := hg.2
  have hp := childrenOf_lt st p name v hbind
  have hv : v < st.nodes.length := by
    have hmem := dictGet_mem _ _ _ hbind
    rw [childrenOf] at hmem
    have := (wf_rec_idx st hwf p hp).2 (name, v) hmem
    simpa using this
  obtain ⟨hlen1, hcur1, hroot1, hpath1, hdata1, hself1, hne1, hcnt1⟩ :=
    dec_links_spec st v hv
  have hbind1 : dictGet (childrenOf (dec_links st v) p) name = some v := by
    rw [childrenOf, hdata1 p]
    exact hbind
  obtain ⟨st2, hdel, hlen2, hcur2, hroot2, hpath2, hlks2, hcnt2, hsub2, hrecne2, hpar2⟩ :=
    delete_child_spec (dec_links st v) p name v hbind1
  have hcntB : ∀ id, entry_count st id = entry_count st2 id + (if v = id then 1 else 0) := by
    intro id
    rw [← hcnt1 id]
    exact hcnt2 id
  refine ⟨st2, hdel, ⟨?_, ?_⟩, by rw [hcur2, hcur1], by rw [hroot2, hroot1],
    by rw [hpath2, hpath1], by omega⟩
  · apply wfIds_of st st2 hwf (by rw [hcur2, hcur1]) (by rw [hroot2, hroot1])
      (by rw [hpath2, hpath1]) (by omega)
    intro q hq
    have hqlt : q < st.nodes.length := by omega
    by_cases hqp : q = p
    · subst hqp
      constructor
      · rw [hpar2, hdata1 q]
        have := (wf_rec_idx st hwf q hqlt).1
        omega
      · intro e he
        have he' := hsub2 e he
        rw [hdata1 q] at he'
        have := (wf_rec_idx st hwf q hqlt).2 e he'
        omega
    · have hdq : (getRec st2 q).data = (getRec st q).data := by
        rw [hrecne2 q hqp, hdata1 q]
      rw [hdq]
      have hw := wf_rec_idx st hwf q hqlt
      exact ⟨by omega, fun e he => by have := hw.2 e he; omega⟩
  · intro i hi hiroot
    rw [hroot2, hroot1] at hiroot
    have hilt : i < st.nodes.length := by omega
    by_cases hiv : i = v
    · subst hiv
      have hl : (getRec st2 i).links = (getRec st i).links - 1 := by
        rw [hlks2 i, hself1]
      have hc := hcntB i
      rw [if_pos rfl] at hc
      rw [hl, hlinks i hilt hiroot, hc]
      push_cast
      ring
    · have hl : (getRec st2 i).links = (getRec st i).links := by
        rw [hlks2 i, hne1 i (fun hh => hiv hh)]
      have hc := hcntB i
      rw [if_neg (fun hh => hiv hh.symm)] at hc
      rw [hl, hlinks i hilt hiroot]
      omega

/-- Adding the moved node under a fresh destination name and then popping
its old entry preserves Good: the mv pattern. -/
lemma good_move (st st3 : FileSystem) (np op' : Nat) (newn oldn : String) (tgt : Nat)
    (hg : Good st) (hdirnp : isDirN st np = true)
    (hfresh : dictGet (childrenOf st np) newn = none)
    (hbind : dictGet (childrenOf st op') oldn = some tgt)
    (htgt : tgt < st.nodes.length)
    (e3 : st3 = add_child st np newn tgt) :
    ∃ st4, delete_child st3 op' oldn = some (st4, tgt) ∧ Good st4 ∧
      st4.current = st.current ∧ st4.root = st.root ∧
      st4.path_to_current = st.path_to_current ∧
      st4.nodes.length = st.nodes.length := by
  have hwf : WfIds st := hg.1
  have hlinks : LinksOk st := hg.2
  have hp := isDirN_lt st np hdirnp
  obtain ⟨ch, par, hd⟩ := isDirN_dir st np hdirnp
  obtain ⟨hlen3, hcur3, hroot3, hpath3, hlks3, hrecp3, hrecne3, hcnt3⟩ :=
    add_child_spec st np newn tgt ch par hd hp
  rw [← e3] at hlen3 hcur3 hroot3 hpath3 hlks3 hrecp3 hrecne3 hcnt3
  have hfresh1 : dictGet ch newn = none := by
    rw [childrenOf, hd] at hfresh
    simpa [childEntries] using hfresh
  have hwf3 : WfIds st3 := by
    apply wfIds_of st st3 hwf hcur3 hroot3 hpath3 (by omega)
    intro q hq
    by_cases hqp : q = np
    · subst hqp
      rw [hrecp3]
      constructor
      · simp only [parentIdx]
        have hw := (wf_rec_idx st hwf q hp).1
        rw [hd] at hw
        simp only [parentIdx] at hw
        omega
      · simp only [childEntries]
        intro e he
        rcases mem_dictInsert ch newn tgt e he with hmem | heq
        · have hw := (wf_rec_idx st hwf q hp).2
          rw [hd] at hw
          simp only [childEntries] at hw
          have := hw e hmem
          omega
        · rw [heq]
          show tgt < st3.nodes.length
          omega
    · have hqlt : q < st.nodes.length := by omega
      rw [hrecne3 q hqp]
      have hw := wf_rec_idx st hwf q hqlt
      exact ⟨by omega, fun e he => by have := hw.2 e he; omega⟩
  have hbind3 : dictGet (childrenOf st3 op') oldn = some tgt := by
    by_cases hop : op' = np
    · subst hop
      have hnen : oldn ≠ newn := by
        intro hh
        subst hh
        rw [childrenOf, hd] at hbind
        simp only [childEntries] at hbind
        rw [hbind] at hfresh1
        cases hfresh1
      rw [childrenOf, hrecp3]
      simp only [childEntries]
      rw [dictGet_insert_ne ch newn oldn tgt hnen]
      rw [childrenOf, hd] at hbind
      simpa [childEntries] using hbind
    · rw [childrenOf, hrecne3 op' hop]
      exact hbind
  obtain ⟨st4, hdel, hlen4, hcur4, hroot4, hpath4, hlks4, hcnt4, hsub4, hrecne4, hpar4⟩ :=
    delete_child_spec st3 op' oldn tgt hbind3
  have hcntD : ∀ id, entry_count st4 id = entry_count st id := by
    intro id
    have h3 := hcnt3 hfresh1 id
    have h4 := hcnt4 id
    omega
  refine ⟨st4, hdel, ⟨?_, ?_⟩, by rw [hcur4, hcur3], by rw [hroot4, hroot3],
    by rw [hpath4, hpath3], by omega⟩
  · apply wfIds_of st3 st4 hwf3 hcur4 hroot4 hpath4 (by omega)
    intro q hq
    have hqlt : q < st3.nodes.length := by omega
    by_cases hqp : q = op'
    · subst hqp
      constructor
      · rw [hpar4]
        have := (wf_rec_idx st3 hwf3 q hqlt).1
        omega
      · intro e he
        have he' := hsub4 e he
        have := (wf_rec_idx st3 hwf3 q hqlt).2 e he'
        omega
    · rw [hrecne4 q hqp]
      have hw := wf_rec_idx st3 hwf3 q hqlt
      exact ⟨by omega, fun e he => by have := hw.2 e he; omega⟩
  · intro i hi hiroot
    rw [hroot4, hroot3] at hiroot
    have hilt : i < st.nodes.length := by omega
    have hl : (getRec st4 i).links = (getRec st i).links := by
      rw [hlks4 i, hlks3 i]
    rw [hl, hcntD i]
    exact hlinks i hilt hiroot

/-- Replacing the session chain (and current directory) with well-formed
values preserves Good: nodes, link counts and entry counts are untouched. -/
lemma good_chain (st : FileSystem) (chain : List (String × Nat)) (cur : Nat)
    (hg : Good st) (hne : chain ≠ []) (hb : ∀ e ∈ chain, e.2 < st.nodes.length)
    (hcur : cur < st.nodes.length) :
    Good { st with current := cur, path_to_current := chain } := by
  obtain ⟨⟨hc, hr, hnemp, hp, hrec⟩, hlinks⟩ := hg
  exact ⟨⟨hcur, hr, hne, hb, hrec⟩, fun i hi hiroot => hlinks i hi hiroot⟩

/-- The chain-only version of good_chain. -/
lemma good_chain_only (st : FileSystem) (chain : List (String × Nat))
    (hg : Good st) (hne : chain ≠ []) (hb : ∀ e ∈ chain, e.2 < st.nodes.length) :
    Good { st with path_to_current := chain } := by
  obtain ⟨⟨hc, hr, hnemp, hp, hrec⟩, hlinks⟩ := hg
  exact ⟨⟨hc, hr, hne, hb, hrec⟩, fun i hi hiroot => hlinks i hi hiroot⟩

/-- Rewriting a file's contents preserves Good. -/
lemma good_set_contents (st : FileSystem) (i : Nat) (c : String) (hg : Good st) :
    Good (set_contents st i c) := by
  have hwf : WfIds st := hg.1
  have hlinks : LinksOk st := hg.2
  obtain ⟨hlen, hcur, hroot, hpath, hlks, hch, hpar, hcnt⟩ := set_contents_spec st i c
  constructor
  · apply wfIds_of st (set_contents st i c) hwf hcur hroot hpath (by omega)
    intro q hq
    have hqlt : q < st.nodes.length := by omega
    rw [hch q, hpar q]
    have hw := wf_rec_idx st hwf q hqlt
    exact ⟨by omega, fun e he => by have := hw.2 e he; omega⟩
  · intro j hj hjroot
    rw [hroot] at hjroot
    have hjlt : j < st.nodes.length := by omega
    rw [hlks j, hcnt j]
    exact hlinks j hjlt hjroot

/-! ## Resolution stays inside the arena -/

lemma find_child_lt (st : FileSystem) (k : Nat) (name : String) (v : Nat)
    (hwf : WfIds st) (hk : k < st.nodes.length)
    (h : find_child st k name = some v) : v < st.nodes.length := by
  cases hd : (getRec st k).data with
  | file c =>
      simp only [find_child, hd] at h
      cases h
  | dir ch p =>
      simp only [find_child, hd] at h
      cases hg : dictGet ch name with
      | some w =>
          rw [hg] at h
          cases h
          have hmem := dictGet_mem _ _ _ hg
          have hw := (wf_rec_idx st hwf k hk).2
          rw [hd] at hw
          simp only [childEntries] at hw
          have := hw _ hmem
          simpa using this
      | none =>
          rw [hg] at h
          by_cases h1 : name = "."
          · rw [if_pos h1] at h
            cases h
            omega
          · rw [if_neg h1] at h
            by_cases h2 : name = ".."
            · rw [if_pos h2] at h
              cases h
              have hw := (wf_rec_idx st hwf k hk).1
              rw [hd] at hw
              simpa [parentIdx] using hw
            · rw [if_neg h2] at h
              cases h

lemma get_node_walk_lt (st : FileSystem) (hwf : WfIds st) :
    ∀ (parts : List String) (node : Option Nat) (m : Nat),
      (∀ k, node = some k → k < st.nodes.length) →
      get_node_walk st node parts = some m → m < st.nodes.length := by
  intro parts
  induction parts with
  | nil =>
      intro node m hb h
      simp only [get_node_walk] at h
      exact hb m h
  | cons p ps ih =>
      intro node m hb h
      cases node with
      | none =>
          simp only [get_node_walk] at h
          exact ih none m (fun k hk => by cases hk) h
      | some n =>
          simp only [get_node_walk] at h
          by_cases hdir : isDirN st n
          · rw [if_pos hdir] at h
            exact ih (find_child st n p) m
              (fun k hk => find_child_lt st n p k hwf (isDirN_lt st n hdir) hk) h
          · rw [if_neg hdir] at h
            exact ih (some n) m (fun k hk => by cases hk; exact hb n rfl) h

lemma get_node_lt (st : FileSystem) (name : String) (n : Nat) (hwf : WfIds st)
    (h : get_node st name = some n) : n < st.nodes.length := by
  unfold get_node at h
  by_cases hn : name = ""
  · rw [if_pos hn] at h
    cases h
    exact hwf.1
  · rw [if_neg hn] at h
    refine get_node_walk_lt st hwf _ _ _ ?_ h
    intro k hk
    cases hk
    by_cases hr : startsWithSlash name = true
    · simp only [if_pos hr]
      exact hwf.2.1
    · simp only [if_neg hr]
      exact hwf.1

lemma get_node_or_fail_ok (st : FileSystem) (name : String) (n : Nat)
    (h : get_node_or_fail st name = .ok n) : get_node st name = some n := by
  unfold get_node_or_fail at h
  cases hg : get_node st name with
  | some m => rw [hg] at h; cases h; rfl
  | none => rw [hg] at h; cases h

lemma get_directory_or_fail_ok (st : FileSystem) (name : String) (n : Nat)
    (h : get_directory_or_fail st name = .ok n) :
    get_node st name = some n ∧ isDirN st n = true := by
  cases hg : get_node_or_fail st name with
  | ok m =>
      simp only [get_directory_or_fail, hg] at h
      by_cases hd : isDirN st m
      · rw [if_pos hd] at h
        cases h
        exact ⟨get_node_or_fail_ok st name n hg, hd⟩
      · rw [if_neg hd] at h
        cases h
  | error e =>
      simp only [get_directory_or_fail, hg] at h
      cases h

lemma find_child_none_dictGet (st : FileSystem) (i : Nat) (name : String)
    (h : find_child st i name = none) : dictGet (childrenOf st i) name = none := by
  cases hd : (getRec st i).data with
  | file c =>
      rw [childrenOf, hd]
      rfl
  | dir ch p =>
      simp only [find_child, hd] at h
      rw [childrenOf, hd]
      simp only [childEntries]
      cases hg : dictGet ch name with
      | some w => rw [hg] at h; cases h
      | none => rfl

lemma not_file_is_dir (st : FileSystem) (i : Nat)
    (h : isFileN st i = false) : isDirN st i = true := by
  unfold isFileN at h
  unfold isDirN
  cases hd : (getRec st i).data with
  | file c =>
      rw [hd] at h
      simp at h
  | dir ch p => rfl

lemma isFileN_of_ge (st : FileSystem) (i : Nat) (hge : st.nodes.length ≤ i) :
    isFileN st i = true := by
  unfold isFileN
  rw [getRec_ge st i hge]

/-! ## Congruence along states sharing the arena -/

lemma getRec_congr (st st' : FileSystem) (h : st'.nodes = st.nodes) (i : Nat) :
    getRec st' i = getRec st i := by
  unfold getRec
  rw [h]

lemma isDirN_congr (st st' : FileSystem) (h : st'.nodes = st.nodes) (i : Nat) :
    isDirN st' i = isDirN st i := by
  unfold isDirN
  rw [getRec_congr st st' h i]

lemma childrenOf_congr (st st' : FileSystem) (h : st'.nodes = st.nodes) (i : Nat) :
    childrenOf st' i = childrenOf st i := by
  unfold childrenOf
  rw [getRec_congr st st' h i]

/-- Rebuild Good for a state with the same arena, a bounded current
directory and a well-formed chain. -/
lemma good_of_fields (st st' : FileSystem) (hg : Good st)
    (hnodes : st'.nodes = st.nodes) (hcur : st'.current < st.nodes.length)
    (hroot : st'.root = st.root)
    (hne : st'.path_to_current ≠ [])
    (hb : ∀ e ∈ st'.path_to_current, e.2 < st.nodes.length) : Good st' := by
  obtain ⟨⟨hc, hr, hnemp, hp, hrec⟩, hlinks⟩ := hg
  constructor
  · refine ⟨by rw [hnodes]; exact hcur, by rw [hnodes, hroot]; exact hr, hne, ?_, ?_⟩
    · intro e he
      rw [hnodes]
      exact hb e he
    · rw [hnodes]
      intro r hrm
      exact hrec r hrm
  · intro i hi hiroot
    rw [hnodes] at hi
    rw [hroot] at hiroot
    have h1 : getRec st' i = getRec st i := getRec_congr st st' hnodes i
    have h2 : entry_count st' i = entry_count st i := by
      unfold entry_count
      rw [hnodes]
    rw [h1, h2]
    exact hlinks i hi hiroot

lemma getLastD_mem {α : Type} (d : α) :
    ∀ (l : List α), l ≠ [] → l.getLastD d ∈ l := by
  intro l
  induction l with
  | nil => intro h; exact absurd rfl h
  | cons a rest ih =>
      intro _
      cases hr : rest with
      | nil => simp [List.getLastD]
      | cons b rest' =>
          rw [← hr]
          have : (a :: rest).getLastD d = rest.getLastD d := by
            rw [hr]
            simp [List.getLastD]
          rw [this]
          exact List.mem_cons_of_mem _ (ih (by rw [hr]; simp))

lemma mem_dropLast {α : Type} :
    ∀ (l : List α) (e : α), e ∈ l.dropLast → e ∈ l := by
  intro l
  induction l with
  | nil => intro e h; cases h
  | cons a rest ih =>
      intro e h
      cases rest with
      | nil => cases h
      | cons b rest' =>
          rw [List.dropLast_cons₂] at h
          rcases List.mem_cons.mp h with he | he
          · rw [he]
            exact List.mem_cons_self _ _
          · exact List.mem_cons_of_mem _ (ih e he)

/-! ## The resolve walk keeps the chain well-formed -/

lemma resolve_loop_chain_wf (st : FileSystem) (en : String) (hwf : WfIds st) :
    ∀ (parts : List String) (node : Nat) (chain : List (String × Nat)),
      node < st.nodes.length → chain ≠ [] →
      (∀ e ∈ chain, e.2 < st.nodes.length) →
      (resolve_loop st en node chain parts).2 ≠ [] ∧
      ∀ e ∈ (resolve_loop st en node chain parts).2, e.2 < st.nodes.length := by
  intro parts
  induction parts with
  | nil =>
      intro node chain hn hne hb
      exact ⟨hne, hb⟩
  | cons p ps ih =>
      intro node chain hn hne hb
      simp only [resolve_loop]
      cases hf : find_child st node p with
      | none => exact ⟨hne, hb⟩
      | some next =>
          dsimp only
          by_cases hdir : isDirN st next
          · rw [if_pos hdir]
            have hnext := find_child_lt st node p next hwf hn hf
            by_cases hpp : p = ".."
            · rw [if_pos hpp]
              by_cases hlen : chain.length > 1
              · rw [if_pos hlen]
                apply ih next _ hnext
                · intro hempty
                  have := congrArg List.length hempty
                  rw [List.length_dropLast] at this
                  simp at this
                  omega
                · intro e he
                  exact hb e (mem_dropLast chain e he)
              · rw [if_neg hlen]
                exact ih next chain hnext hne hb
            · rw [if_neg hpp]
              by_cases hpd : p = "."
              · rw [if_pos hpd]
                exact ih next chain hnext hne hb
              · rw [if_neg hpd]
                apply ih next _ hnext
                · simp
                · intro e he
                  rcases List.mem_append.mp he with he | he
                  · exact hb e he
                  · rcases List.mem_singleton.mp he with rfl
                    simpa using hnext
          · rw [if_neg hdir]
            exact ih node chain hn hne hb

lemma resolve_path_spec (st : FileSystem) (name : String) (hwf : WfIds st) :
    (resolve_path st name).2.nodes = st.nodes ∧
    (resolve_path st name).2.current = st.current ∧
    (resolve_path st name).2.root = st.root ∧
    (resolve_path st name).2.path_to_current ≠ [] ∧
    (∀ e ∈ (resolve_path st name).2.path_to_current, e.2 < st.nodes.length) ∧
    (∀ ref, (resolve_path st name).1 = .ok ref →
      readChain (resolve_path st name).2 ref ≠ [] ∧
      ∀ e ∈ readChain (resolve_path st name).2 ref, e.2 < st.nodes.length) := by
  have hcur := hwf.1
  have hroot := hwf.2.1
  have hnemp := hwf.2.2.1
  have hbpath := hwf.2.2.2.1
  by_cases hn : name = ""
  · have hpair : resolve_path st name = (.ok .session, st) := by
      simp [resolve_path, hn]
    rw [hpair]
    refine ⟨rfl, rfl, rfl, hnemp, hbpath, ?_⟩
    intro ref href
    cases href
    exact ⟨hnemp, hbpath⟩
  · by_cases hr : startsWithSlash name = true
    · have hloop := resolve_loop_chain_wf st (dropFirstChar name) hwf
        (splitPath (dropFirstChar name)) st.root [("", st.root)] hroot (by simp)
        (by intro e he
            rcases List.mem_singleton.mp he with rfl
            simpa using hroot)
      cases hres : (resolve_loop st (dropFirstChar name) st.root [("", st.root)]
          (splitPath (dropFirstChar name))).1 with
      | ok u =>
          have hpair : resolve_path st name =
              (.ok (.fresh (resolve_loop st (dropFirstChar name) st.root [("", st.root)]
                (splitPath (dropFirstChar name))).2), st) := by
            simp only [resolve_path, if_neg hn, hr, if_true, hres]
          rw [hpair]
          refine ⟨rfl, rfl, rfl, hnemp, hbpath, ?_⟩
          intro ref href
          cases href
          exact ⟨hloop.1, hloop.2⟩
      | error e =>
          have hpair : resolve_path st name = (.error e, st) := by
            simp only [resolve_path, if_neg hn, hr, if_true, hres]
          rw [hpair]
          refine ⟨rfl, rfl, rfl, hnemp, hbpath, ?_⟩
          intro ref href
          cases href
    · have hrf : startsWithSlash name = false := by
        cases hsw : startsWithSlash name
        · rfl
        · exact absurd hsw hr
      have hloop := resolve_loop_chain_wf st name hwf
        (splitPath name) st.current st.path_to_current hcur hnemp hbpath
      cases hres : (resolve_loop st name st.current st.path_to_current
          (splitPath name)).1 with
      | ok u =>
          have hpair : resolve_path st name = (.ok .session,
              { st with path_to_current := (resolve_loop st name st.current
                st.path_to_current (splitPath name)).2 }) := by
            simp only [resolve_path, if_neg hn, hrf, Bool.false_eq_true, if_false, hres]
          rw [hpair]
          refine ⟨rfl, rfl, rfl, hloop.1, hloop.2, ?_⟩
          intro ref href
          cases href
          exact ⟨hloop.1, hloop.2⟩
      | error e =>
          have hpair : resolve_path st name = (.error e,
              { st with path_to_current := (resolve_loop st name st.current
                st.path_to_current (splitPath name)).2 }) := by
            simp only [resolve_path, if_neg hn, hrf, Bool.false_eq_true, if_false, hres]
          rw [hpair]
          refine ⟨rfl, rfl, rfl, hloop.1, hloop.2, ?_⟩
          intro ref href
          cases href

lemma good_resolve (st : FileSystem) (name : String) (hg : Good st) :
    Good (resolve_path st name).2 := by
  obtain ⟨hnodes, hcur, hroot, hne, hb, -⟩ := resolve_path_spec st name hg.1
  exact good_of_fields st _ hg hnodes (by rw [hcur]; exact hg.1.1) hroot hne hb

lemma good_cd (st st' : FileSystem) (name : String) (res : Except Err Unit)
    (hg : Good st) (h : cd st name = (res, st')) : Good st' := by
  by_cases hn : name = ""
  · simp only [cd, if_pos hn] at h
    cases h
    refine good_of_fields st _ hg rfl ?_ rfl ?_ ?_
    · exact hg.1.2.1
    · simp
    · intro e he
      rcases List.mem_singleton.mp he with rfl
      simpa using hg.1.2.1
  · simp only [cd, if_neg hn] at h
    cases hgn : get_node_or_fail st name with
    | error e =>
        rw [hgn] at h
        cases h
        exact hg
    | ok n =>
        rw [hgn] at h
        dsimp only at h
        by_cases hd : isDirN st n
        · rw [hd] at h
          simp only [Bool.not_true, Bool.false_eq_true, if_false] at h
          obtain ⟨hnodes, hcur, hroot, hne, hb, hok⟩ := resolve_path_spec st name hg.1
          cases hres : resolve_path st name with
          | mk r stR =>
              rw [hres] at h
              rw [hres] at hnodes hcur hroot hne hb hok
              dsimp only at hnodes hcur hroot hne hb hok
              cases r with
              | ok ref =>
                  dsimp only at h
                  cases h
                  obtain ⟨hcne, hcb⟩ := hok ref rfl
                  refine good_of_fields st _ hg ?_ ?_ ?_ ?_ ?_
                  · exact hnodes
                  · have hmem := getLastD_mem ("", stR.root) (readChain stR ref) hcne
                    exact hcb _ hmem
                  · exact hroot
                  · exact hcne
                  · exact hcb
              | error e =>
                  dsimp only at h
                  cases h
                  refine good_of_fields st _ hg hnodes ?_ hroot hne hb
                  rw [hcur]
                  exact hg.1.1
        · have hdf : isDirN st n = false := by
            revert hd
            cases isDirN st n <;> simp
          rw [hdf] at h
          simp only [Bool.not_false, if_true] at h
          cases h
          exact hg

/-! ## Per-operation preservation of Good -/

/-- The shared create_file / touch insertion step. -/
lemma good_create_core (st : FileSystem) (parent : Nat) (n : String)
    (hg : Good st) (hdir : isDirN st parent = true)
    (hfresh : dictGet (childrenOf st parent) (requested_of n) = none) :
    Good (add_child (alloc_file st).1 parent (requested_of n) (alloc_file st).2) := by
  have := good_alloc_add st (alloc_file st).1
    (add_child (alloc_file st).1 parent (requested_of n) (alloc_file st).2)
    parent (requested_of n) ⟨.file "", 1⟩ hg hdir hfresh rfl rfl
    (by simp [parentIdx]) rfl rfl
  exact this.1

lemma okCreate_fresh (st : FileSystem) (n : String) (parent : Nat)
    (hok : okCreate st n = true)
    (hgd : get_directory_or_fail st (parent_path_of n) = .ok parent) :
    dictGet (childrenOf st parent) (requested_of n) = none := by
  rw [okCreate, hgd] at hok
  unfold fresh_in at hok
  exact Option.isNone_iff_eq_none.mp hok

lemma good_create_file (st st' : FileSystem) (n : String) (res : Except Err Nat)
    (hg : Good st) (hok : okCreate st n = true)
    (h : create_file st n = (res, st')) : Good st' := by
  cases hf : fail_if_node_exists st n with
  | error e =>
      simp only [create_file, hf] at h
      cases h
      exact hg
  | ok u =>
      simp only [create_file, hf] at h
      cases hgd : get_directory_or_fail st (parent_path_of n) with
      | error e =>
          rw [hgd] at h
          dsimp only at h
          cases h
          exact hg
      | ok parent =>
          rw [hgd] at h
          dsimp only at h
          cases h
          exact good_create_core st parent n hg
            (get_directory_or_fail_ok st _ parent hgd).2
            (okCreate_fresh st n parent hok hgd)

lemma good_touch (st st' : FileSystem) (n : String) (res : Except Err Nat)
    (hg : Good st) (hok : okOp st (.touch n) = true)
    (h : touch st n = (res, st')) : Good st' := by
  cases hgn : get_node st n with
  | some m =>
      simp only [touch, hgn] at h
      cases h
      exact hg
  | none =>
      simp only [touch, hgn] at h
      have hok' : okCreate st n = true := by
        simp only [okOp, hgn] at hok
        exact hok
      cases hgd : get_directory_or_fail st (parent_path_of n) with
      | error e =>
          rw [hgd] at h
          dsimp only at h
          cases h
          exact hg
      | ok parent =>
          rw [hgd] at h
          dsimp only at h
          cases h
          exact good_create_core st parent n hg
            (get_directory_or_fail_ok st _ parent hgd).2
            (okCreate_fresh st n parent hok' hgd)

lemma good_write_file (st st' : FileSystem) (n c : String) (res : Except Err Nat)
    (hg : Good st) (hok : okOp st (.write_file n c) = true)
    (h : write_file st n c = (res, st')) : Good st' := by
  cases hgn : get_node st n with
  | some m =>
      simp only [write_file, hgn] at h
      by_cases hd : isDirN st m
      · rw [hd] at h
        simp only [if_true] at h
        cases h
        exact hg
      · have hdf : isDirN st m = false := by
          revert hd
          cases isDirN st m <;> simp
        rw [hdf] at h
        simp only [Bool.false_eq_true, if_false] at h
        cases h
        exact good_set_contents st m c hg
  | none =>
      simp only [write_file, hgn] at h
      have hok' : okCreate st n = true := by
        simp only [okOp, hgn] at hok
        exact hok
      cases hcf : create_file st n with
      | mk r st1 =>
          rw [hcf] at h
          have hg1 : Good st1 := good_create_file st st1 n r hg hok' hcf
          cases r with
          | ok fid =>
              dsimp only at h
              cases h
              exact good_set_contents st1 fid c hg1
          | error e =>
              dsimp only at h
              cases h
              exact hg1

lemma read_file_snd (st : FileSystem) (nm : String) (stream : Bool) :
    (read_file st nm stream).2 = st := by
  unfold read_file
  cases get_node_or_fail st nm with
  | error e => rfl
  | ok n =>
      dsimp only
      by_cases hd : isDirN st n
      · rw [hd]
        simp
      · have hdf : isDirN st n = false := by
          revert hd
          cases isDirN st n <;> simp
        rw [hdf]
        cases stream <;> simp

lemma ls_snd (st : FileSystem) (nm : String) : (ls st nm).2 = st := by
  unfold ls
  by_cases hn : nm = ""
  · rw [if_pos hn]
  · rw [if_neg hn]
    cases get_directory_or_fail st nm <;> rfl

lemma find_snd (st : FileSystem) (nm rel : String) : (find st nm rel).2 = st := by
  unfold find
  by_cases hr : rel = ""
  · rw [if_pos hr]
  · rw [if_neg hr]
    cases get_node_or_fail st rel <;> rfl

lemma good_create_tree_loop :
    ∀ (parts : List String) (st : FileSystem) (node : Nat) (res : Except Err Unit)
      (st' : FileSystem), Good st → node < st.nodes.length →
      create_tree_loop st node parts = (res, st') →
      Good st' ∧ st'.current = st.current ∧ st'.root = st.root ∧
      st'.path_to_current = st.path_to_current ∧ st.nodes.length ≤ st'.nodes.length := by
  intro parts
  induction parts with
  | nil =>
      intro st node res st' hg hn h
      simp only [create_tree_loop] at h
      cases h
      exact ⟨hg, rfl, rfl, rfl, le_refl _⟩
  | cons p ps ih =>
      intro st node res st' hg hn h
      simp only [create_tree_loop] at h
      by_cases hf : isFileN st node
      · rw [hf] at h
        simp only [if_true] at h
        cases h
        exact ⟨hg, rfl, rfl, rfl, le_refl _⟩
      · have hff : isFileN st node = false := by
          revert hf
          cases isFileN st node <;> simp
        rw [hff] at h
        simp only [Bool.false_eq_true, if_false] at h
        cases hfc : find_child st node p with
        | some existing =>
            rw [hfc] at h
            dsimp only at h
            exact ih st existing res st' hg
              (find_child_lt st node p existing hg.1 hn hfc) h
        | none =>
            rw [hfc] at h
            dsimp only at h
            have hdir := not_file_is_dir st node hff
            have hfresh := find_child_none_dictGet st node p hfc
            have hga := good_alloc_add st (alloc_dir st node).1
              (add_child (alloc_dir st node).1 node p (alloc_dir st node).2) node p
              ⟨.dir [] node, 1⟩ hg hdir hfresh rfl rfl
              (by simp only [parentIdx]; omega) rfl rfl
            obtain ⟨hgA, hcA, hrA, hpA, hlA, -⟩ := hga
            have hnid : (alloc_dir st node).2 <
                (add_child (alloc_dir st node).1 node p (alloc_dir st node).2).nodes.length := by
              show st.nodes.length < _
              omega
            obtain ⟨hg', hc', hr', hp', hl'⟩ := ih _ (alloc_dir st node).2 res st' hgA hnid h
            exact ⟨hg', by rw [hc', hcA], by rw [hr', hrA], by rw [hp', hpA], by omega⟩

lemma good_create_tree (st st' : FileSystem) (name : String) (res : Except Err Unit)
    (hg : Good st) (h : create_tree st name = (res, st')) :
    Good st' ∧ st'.current = st.current ∧ st'.root = st.root ∧
    st'.path_to_current = st.path_to_current ∧ st.nodes.length ≤ st'.nodes.length := by
  unfold create_tree at h
  by_cases hr : startsWithSlash name = true
  · rw [hr] at h
    simp only [if_true] at h
    exact good_create_tree_loop _ st st.root res st' hg hg.1.2.1 h
  · have hrf : startsWithSlash name = false := by
      revert hr
      cases startsWithSlash name <;> simp
    rw [hrf] at h
    simp only [Bool.false_eq_true, if_false] at h
    exact good_create_tree_loop _ st st.current res st' hg hg.1.1 h

lemma good_mkdir (st st' : FileSystem) (n : String) (ci : Bool) (res : Except Err Nat)
    (hg : Good st) (hok : okOp st (.mkdir n ci) = true)
    (h : mkdir st n ci = (res, st')) : Good st' := by
  cases hfe : fail_if_node_exists st n with
  | error e =>
      simp only [mkdir, hfe] at h
      cases h
      exact hg
  | ok u =>
      simp only [mkdir, hfe] at h
      cases hct : (if ci then create_tree st (parent_path_of n) else (.ok (), st)) with
      | mk r st1 =>
          rw [hct] at h
          dsimp only at h
          have hg1 : Good st1 := by
            by_cases hci : ci
            · rw [if_pos hci] at hct
              exact (good_create_tree st st1 (parent_path_of n) r hg hct).1
            · rw [if_neg hci] at hct
              cases hct
              exact hg
          cases r with
          | error e =>
              dsimp only at h
              cases h
              exact hg1
          | ok u2 =>
              dsimp only at h
              cases hgd : get_directory_or_fail st1 (parent_path_of n) with
              | error e =>
                  rw [hgd] at h
                  dsimp only at h
                  cases h
                  exact hg1
              | ok parent =>
                  rw [hgd] at h
                  dsimp only at h
                  cases h
                  have hdir := (get_directory_or_fail_ok st1 _ parent hgd).2
                  have hfresh : dictGet (childrenOf st1 parent) (requested_of n) = none := by
                    simp only [okOp] at hok
                    rw [hct] at hok
                    dsimp only at hok
                    rw [hgd] at hok
                    dsimp only at hok
                    unfold fresh_in at hok
                    exact Option.isNone_iff_eq_none.mp hok
                  have := good_alloc_add st1 (alloc_dir st1 parent).1
                    (add_child (alloc_dir st1 parent).1 parent (requested_of n)
                      (alloc_dir st1 parent).2)
                    parent (requested_of n) ⟨.dir [] parent, 1⟩ hg1 hdir hfresh rfl rfl
                    (by simp only [parentIdx]
                        have := isDirN_lt st1 parent hdir
                        omega) rfl rfl
                  exact this.1

lemma good_ln (st st' : FileSystem) (t d : String) (res : Except Err Nat)
    (hg : Good st) (hok : okOp st (.ln t d) = true)
    (h : ln st t d = (res, st')) : Good st' := by
  cases hgt : get_node_or_fail st t with
  | error e =>
      simp only [ln, hgt] at h
      cases h
      exact hg
  | ok tgt =>
      simp only [ln, hgt] at h
      cases hgd : get_directory_or_fail st (parent_path_of d) with
      | error e =>
          rw [hgd] at h
          dsimp only at h
          cases h
          exact hg
      | ok p =>
          rw [hgd] at h
          dsimp only at h
          cases h
          have hdir := (get_directory_or_fail_ok st _ p hgd).2
          have htgt := get_node_lt st t tgt hg.1 (get_node_or_fail_ok st t tgt hgt)
          have hfresh : dictGet (childrenOf st p) (requested_of d) = none := by
            simp only [okOp, hgd] at hok
            unfold fresh_in at hok
            exact Option.isNone_iff_eq_none.mp hok
          exact (good_link_add st _ p (requested_of d) tgt hg hdir hfresh htgt rfl).1

lemma good_rm (st st' : FileSystem) (n : String) (rec : Bool) (res : Except Err Nat)
    (hg : Good st) (hok : okOp st (.rm n rec) = true)
    (h : rm st n rec = (res, st')) : Good st' := by
  cases hgn : get_node_or_fail st n with
  | error e =>
      simp only [rm, hgn] at h
      cases h
      exact hg
  | ok node =>
      simp only [rm, hgn] at h
      by_cases hdr : (isDirN st node && !rec) = true
      · rw [hdr] at h
        simp only [if_true] at h
        cases h
        exact hg
      · have hdrf : (isDirN st node && !rec) = false := by
          revert hdr
          cases isDirN st node && !rec <;> simp
        rw [hdrf] at h
        simp only [Bool.false_eq_true, if_false] at h
        cases hgd : get_directory_or_fail st (parent_path_of n) with
        | error e =>
            rw [hgd] at h
            dsimp only at h
            cases h
            exact hg
        | ok parent =>
            rw [hgd] at h
            dsimp only at h
            have hgn' := get_node_or_fail_ok st n node hgn
            have hbind : dictGet (childrenOf st parent) (requested_of n) = some node := by
              simp only [okOp, hgn', hgd] at hok
              exact of_decide_eq_true hok
            obtain ⟨st2, hdel, hgood2, -, -, -, -⟩ :=
              good_remove st parent (requested_of n) node hg hbind
            rw [hdel] at h
            dsimp only at h
            cases h
            exact hgood2

lemma good_mv (st st' : FileSystem) (o n : String) (res : Except Err Nat)
    (hg : Good st) (hok : okOp st (.mv o n) = true)
    (h : mv st o n = (res, st')) : Good st' := by
  cases hgo : get_node_or_fail st o with
  | error e =>
      simp only [mv, hgo] at h
      cases h
      exact hg
  | ok node =>
      simp only [mv, hgo] at h
      cases hgop : get_directory_or_fail st (parent_path_of o) with
      | error e =>
          rw [hgop] at h
          dsimp only at h
          cases h
          exact hg
      | ok op' =>
          rw [hgop] at h
          dsimp only at h
          cases hgnp : get_directory_or_fail st (parent_path_of n) with
          | error e =>
              rw [hgnp] at h
              dsimp only at h
              cases h
              exact hg
          | ok np =>
              rw [hgnp] at h
              dsimp only at h
              cases hr1 : resolve_path st (parent_path_of n) with
              | mk r1 st1 =>
                  rw [hr1] at h
                  have hg1 : Good st1 := by
                    have := good_resolve st (parent_path_of n) hg
                    rw [hr1] at this
                    exact this
                  have hn1 : st1.nodes = st.nodes := by
                    have := (resolve_path_spec st (parent_path_of n) hg.1).1
                    rw [hr1] at this
                    exact this
                  cases r1 with
                  | error e =>
                      dsimp only at h
                      cases h
                      exact hg1
                  | ok ref1 =>
                      dsimp only at h
                      cases hr2 : resolve_path st1 (parent_path_of o) with
                      | mk r2 st2 =>
                          rw [hr2] at h
                          have hg2 : Good st2 := by
                            have := good_resolve st1 (parent_path_of o) hg1
                            rw [hr2] at this
                            exact this
                          have hn2 : st2.nodes = st.nodes := by
                            have := (resolve_path_spec st1 (parent_path_of o) hg1.1).1
                            rw [hr2] at this
                            rw [← hn1]
                            exact this
                          cases r2 with
                          | error e =>
                              dsimp only at h
                              cases h
                              exact hg2
                          | ok ref2 =>
                              dsimp only at h
                              by_cases hno : (readChain st2 ref1 = readChain st2 ref2 ∧
                                  requested_of n = requested_of o)
                              · rw [if_pos hno] at h
                                cases h
                                exact hg2
                              · rw [if_neg hno] at h
                                have hgo' := get_node_or_fail_ok st o node hgo
                                have hokm : (fresh_in st np (requested_of n) &&
                                    decide (dictGet (childrenOf st op') (requested_of o) =
                                      some node)) = true := by
                                  simp only [okOp, hgo', hgop, hgnp] at hok
                                  exact hok
                                obtain ⟨hf1, hf2⟩ := Bool.and_eq_true_iff.mp hokm
                                have hfresh : dictGet (childrenOf st np)
                                    (requested_of n) = none := by
                                  unfold fresh_in at hf1
                                  exact Option.isNone_iff_eq_none.mp hf1
                                have hbind := of_decide_eq_true hf2
                                have hfresh2 : dictGet (childrenOf st2 np)
                                    (requested_of n) = none := by
                                  rw [childrenOf_congr st st2 hn2]
                                  exact hfresh
                                have hbind2 : dictGet (childrenOf st2 op')
                                    (requested_of o) = some node := by
                                  rw [childrenOf_congr st st2 hn2]
                                  exact hbind
                                have hdir2 : isDirN st2 np = true := by
                                  rw [isDirN_congr st st2 hn2]
                                  exact (get_directory_or_fail_ok st _ np hgnp).2
                                have htgt2 : node < st2.nodes.length := by
                                  rw [hn2]
                                  exact get_node_lt st o node hg.1 hgo'
                                obtain ⟨st4, hdel, hg4, -, -, -, -⟩ :=
                                  good_move st2 _ np op' (requested_of n) (requested_of o)
                                    node hg2 hdir2 hfresh2 hbind2 htgt2 rfl
                                rw [hdel] at h
                                dsimp only at h
                                cases h
                                exact hg4

lemma good_step (st st' : FileSystem) (op : Op) (u : Unit) (hg : Good st)
    (hok : okOp st op = true) (h : stepOp st op = (.ok u, st')) : Good st' := by
  cases op with
  | cd nm =>
      exact good_cd st st' nm (.ok u) hg (by simpa [stepOp] using h)
  | mkdir nm ci =>
      cases hmk : mkdir st nm ci with
      | mk r st1 =>
          simp only [stepOp, hmk] at h
          have h2 : st1 = st' := congrArg Prod.snd h
          subst h2
          exact good_mkdir st st1 nm ci r hg hok hmk
  | create_file nm =>
      cases hmk : create_file st nm with
      | mk r st1 =>
          simp only [stepOp, hmk] at h
          have h2 : st1 = st' := congrArg Prod.snd h
          subst h2
          exact good_create_file st st1 nm r hg (by simpa [okOp] using hok) hmk
  | touch nm =>
      cases hmk : touch st nm with
      | mk r st1 =>
          simp only [stepOp, hmk] at h
          have h2 : st1 = st' := congrArg Prod.snd h
          subst h2
          exact good_touch st st1 nm r hg hok hmk
  | write_file nm c =>
      cases hmk : write_file st nm c with
      | mk r st1 =>
          simp only [stepOp, hmk] at h
          have h2 : st1 = st' := congrArg Prod.snd h
          subst h2
          exact good_write_file st st1 nm c r hg hok hmk
  | read_file nm =>
      have h2 : (read_file st nm false).2 = st' := by
        simpa [stepOp] using congrArg Prod.snd h
      rw [read_file_snd st nm false] at h2
      subst h2
      exact hg
  | ls nm =>
      have h2 : (ls st nm).2 = st' := by
        simpa [stepOp] using congrArg Prod.snd h
      rw [ls_snd st nm] at h2
      subst h2
      exact hg
  | find nm rel =>
      have h2 : (find st nm rel).2 = st' := by
        simpa [stepOp] using congrArg Prod.snd h
      rw [find_snd st nm rel] at h2
      subst h2
      exact hg
  | ln t d =>
      cases hmk : ln st t d with
      | mk r st1 =>
          simp only [stepOp, hmk] at h
          have h2 : st1 = st' := congrArg Prod.snd h
          subst h2
          exact good_ln st st1 t d r hg hok hmk
  | mv o n =>
      cases hmk : mv st o n with
      | mk r st1 =>
          simp only [stepOp, hmk] at h
          have h2 : st1 = st' := congrArg Prod.snd h
          subst h2
          exact good_mv st st1 o n r hg hok hmk
  | rm nm rec =>
      cases hmk : rm st nm rec with
      | mk r st1 =>
          simp only [stepOp, hmk] at h
          have h2 : st1 = st' := congrArg Prod.snd h
          subst h2
          exact good_rm st st1 nm rec r hg hok hmk

lemma runSafe_good : ∀ (ops : List Op) (st st' : FileSystem),
    Good st → runSafe st ops = some st' → Good st' := by
  intro ops
  induction ops with
  | nil =>
      intro st st' hg h
      simp only [runSafe] at h
      cases h
      exact hg
  | cons op rest ih =>
      intro st st' hg h
      simp only [runSafe] at h
      by_cases hok : okOp st op = true
      · rw [if_pos hok] at h
        cases hstep : stepOp st op with
        | mk r st1 =>
            rw [hstep] at h
            cases r with
            | ok u =>
                dsimp only at h
                exact ih st1 st' (good_step st st1 op u hg hok hstep) h
            | error e =>
                dsimp only at h
                cases h
      · rw [if_neg hok] at h
        cases h

lemma good_fresh : Good FileSystem.fresh := by decide

/-! ## Walk composition: a file swallows the remaining components -/

lemma dictGet_insert_self : ∀ (l : List (String × Nat)) (k : String) (v : Nat),
    dictGet (dictInsert l k v) k = some v := by
  intro l k v
  induction l with
  | nil => simp [dictInsert, dictGet]
  | cons a rest ih =>
      by_cases hk : a.1 = k
      · simp [dictInsert, dictGet, hk]
      · simp only [dictInsert, if_neg hk, dictGet]
        exact ih

lemma isFileN_not_dir (st : FileSystem) (i : Nat) (h : isFileN st i = true) :
    isDirN st i = false := by
  unfold isFileN at h
  unfold isDirN
  cases hd : (getRec st i).data with
  | file c => rfl
  | dir ch p => rw [hd] at h; cases h

lemma get_node_walk_append (st : FileSystem) :
    ∀ (ps qs : List String) (o : Option Nat),
      get_node_walk st o (ps ++ qs) = get_node_walk st (get_node_walk st o ps) qs := by
  intro ps
  induction ps with
  | nil =>
      intro qs o
      cases o <;> rfl
  | cons p ps' ih =>
      intro qs o
      cases o with
      | none =>
          simp only [List.cons_append, get_node_walk]
          exact ih qs none
      | some n =>
          simp only [List.cons_append, get_node_walk]
          by_cases hd : isDirN st n
          · rw [if_pos hd, if_pos hd]
            exact ih qs (find_child st n p)
          · rw [if_neg hd, if_neg hd]
            exact ih qs (some n)

lemma get_node_walk_file (st : FileSystem) (fid : Nat) (hfile : isFileN st fid = true) :
    ∀ qs, get_node_walk st (some fid) qs = some fid := by
  intro qs
  induction qs with
  | nil => rfl
  | cons q qs' ih =>
      simp only [get_node_walk, isFileN_not_dir st fid hfile, Bool.false_eq_true, if_false]
      exact ih

/-! ## Claim theorems -/

/-- C1 (code bug demonstration): on the session with directories a and b
and file a/f, the successful mv of a/f to b/g leaves cwd changed from /
to /b/a — _resolve_path walked and mutated the live session chain instead
of a copy, so an operation other than cd changed session state. -/
theorem c1_mv_mutates_session_chain :
    cwd st_ab = "/" ∧
    (mv st_ab "a/f" "b/g").1 = .ok 3 ∧
    cwd (mv st_ab "a/f" "b/g").2 = "/b/a" ∧
    (mv st_ab "a/f" "b/g").2.path_to_current = [("", 0), ("b", 2), ("a", 1)] := by
  decide

/-- C2 (counterexample): read_file on f/x, where f is a file and x a
remaining component, returns the contents of f instead of raising
NotADirectory as the claim requires. -/
theorem c2_intermediate_file_read_succeeds :
    get_node st_c2 "f" = some 1 ∧ isFileN st_c2 1 = true ∧
    (read_file st_c2 "f/x" false).1 = .ok (.whole "") := by
  decide

/-- C2 (amended): once the resolution walk reaches a file node, every
remaining component is ignored — the walk sticks at that file instead of
failing with NotADirectory — and read_file on any path resolving this way
returns that file's contents. -/
theorem c2_file_swallows_remaining_components (st : FileSystem) (ps qs : List String)
    (start : Option Nat) (fid : Nat)
    (hwalk : get_node_walk st start ps = some fid)
    (hfile : isFileN st fid = true) :
    get_node_walk st start (ps ++ qs) = some fid ∧
    ∀ name, get_node st name = some fid →
      (read_file st name false).1 = .ok (.whole (contentsOf st fid)) := by
  constructor
  · rw [get_node_walk_append st ps qs start, hwalk]
    exact get_node_walk_file st fid hfile qs
  · intro name hname
    have hor : get_node_or_fail st name = .ok fid := by
      unfold get_node_or_fail
      rw [hname]
    simp only [read_file, hor, isFileN_not_dir st fid hfile, Bool.false_eq_true, if_false]

/-- C2 witness: the amended statement evaluated on the session holding
only the file f, with ps the path to f and qs the spurious tail x. -/
theorem c2_file_swallows_remaining_components_witness :
    get_node_walk st_c2 (some 0) (["f"] ++ ["x"]) = some 1 ∧
    (read_file st_c2 "f/x" false).1 = .ok (.whole (contentsOf st_c2 1)) := by
  have h := c2_file_swallows_remaining_components st_c2 ["f"] ["x"] (some 0) 1
    (by decide) (by decide)
  exact ⟨h.1, h.2 "f/x" (by decide)⟩

/-- C3 (code bug demonstration): rm of the reserved name dot with
recursive set decrements the root inode link count to 0 and then fails
with the KeyError escaping delete_child, leaving the state mutated on a
failing operation. -/
theorem c3_rm_dot_mutates_then_raises :
    (rm FileSystem.fresh "." true).1 = .error (.key_error ".") ∧
    linksOf (rm FileSystem.fresh "." true).2 0 = 0 ∧
    (rm FileSystem.fresh "." true).2 ≠ FileSystem.fresh := by
  decide

/-- C4 (counterexample): with files a and b, the successful mv of a onto
the existing name b silently overwrites the entry: the old b inode (id 2)
keeps link count 1 while no directory entry references it, so the claimed
invariant fails after a successful operation sequence. -/
theorem c4_mv_overwrite_breaks_link_count :
    (mv st_c4 "a" "b").1 = .ok 1 ∧
    linksOf (mv st_c4 "a" "b").2 2 = 1 ∧
    entry_count (mv st_c4 "a" "b").2 2 = 0 ∧
    ¬ LinksOk (mv st_c4 "a" "b").2 := by
  decide

/-- C4 (amended): after every sequence of successful operations in which
no child-table insertion overwrites an existing entry and every removal
pops the entry bound to the node it resolved (the okOp side conditions),
every inode other than the root has its links field equal to the number
of real directory entries in the arena referencing it. -/
theorem c4_links_invariant (ops : List Op) (st' : FileSystem)
    (h : runSafe FileSystem.fresh ops = some st') : LinksOk st' :=
  (runSafe_good ops FileSystem.fresh st' good_fresh h).2

/-- C4 witness: a session exercising mkdir, touch, ln, write_file and rm,
run through the checked runner, ends with correct link counts. -/
theorem c4_links_invariant_witness :
    runSafe FileSystem.fresh c4_witness_ops = some c4_witness_state ∧
    LinksOk c4_witness_state :=
  ⟨by decide, c4_links_invariant c4_witness_ops c4_witness_state (by decide)⟩

/-- C5 (code bug demonstration): the resolved parents of a/f and b/f are
the distinct directories a (id 1) and b (id 2), yet mv(a/f, b/f) is a
no-op — the entry stays in a and never appears in b — because the
same-parent check compares the session chain list with itself. -/
theorem c5_mv_same_name_across_directories_is_noop :
    get_node st_ab "a" = some 1 ∧ get_node st_ab "b" = some 2 ∧
    (mv st_ab "a/f" "b/f").1 = .ok 3 ∧
    dictGet (childrenOf (mv st_ab "a/f" "b/f").2 1) "f" = some 3 ∧
    dictGet (childrenOf (mv st_ab "a/f" "b/f").2 2) "f" = none := by
  decide

/-- C6 (counterexample): ln of file f to destination dot succeeds and
installs a real child literally named dot in the root directory, so
creating such a child is possible. -/
theorem c6_ln_creates_real_dot_entry :
    (ln (touch FileSystem.fresh "f").2 "f" ".").1 = .ok 1 ∧
    dictGet (childrenOf st_c6 0) "." = some 1 := by
  decide

/-- C6 (amended): find_child consults the reserved self/parent table only
when the name is not among the real children — a real child entry always
wins the lookup. -/
theorem c6_find_child_checks_real_children_first (st : FileSystem) (d : Nat)
    (nm : String) (v : Nat) (h : dictGet (childrenOf st d) nm = some v) :
    find_child st d nm = some v := by
  obtain ⟨ch, par, hd, hget⟩ := childrenOf_dir st d nm v h
  simp only [find_child, hd, hget]

/-- C6 witness: in the session where ln installed a real child named dot,
find_child resolves dot to that child (the file, id 1), shadowing the
reserved self reference. -/
theorem c6_find_child_checks_real_children_first_witness :
    find_child st_c6 0 "." = some 1 :=
  c6_find_child_checks_real_children_first st_c6 0 "." 1 (by decide)

/-- C7: after building a/b/c/d/e as a file and then a/b/e as a directory,
find of e from the root returns exactly a/b/e then a/b/c/d/e, the LIFO
stack discovery order. -/
theorem c7_find_lifo_order :
    runSafe FileSystem.fresh c7_build_ops = some st_c7 ∧
    (find st_c7 "e" "").1 = .ok ["a/b/e", "a/b/c/d/e"] := by
  decide

/-- C8 (code bug demonstration): with current directory /d, write_file of
the absolute single-component path /f succeeds but creates the file in
the current directory (the parent path of /f collapses to the empty
string), so the immediately following read_file of /f raises
NoSuchFileOrDirectory instead of returning the written string. -/
theorem c8_absolute_single_component_roundtrip_fails :
    (write_file st_c8 "/f" "hello").1 = .ok 2 ∧
    dictGet (childrenOf (write_file st_c8 "/f" "hello").2 1) "f" = some 2 ∧
    contentsOf (write_file st_c8 "/f" "hello").2 2 = "hello" ∧
    (read_file (write_file st_c8 "/f" "hello").2 "/f" false).1 =
      .error (.no_such_file_or_directory "/f") := by
  decide

/-- C9 (code bug demonstration): mkdir of the single-component path x
with create_intermediates also creates a directory child with the empty
name (the empty parent path splits into one empty component), so ls lists
two entries instead of exactly x. -/
theorem c9_mkdir_intermediates_creates_empty_named_child :
    (mkdir FileSystem.fresh "x" true).1 = .ok 2 ∧
    (ls (mkdir FileSystem.fresh "x" true).2 "").1 = .ok ["", "x"] := by
  decide

/-- C10: ln accepts a directory target: whenever the target resolves to a
directory inode and the destination parent resolves to a directory, ln
succeeds, binds the destination name to the very same directory inode,
and increments its link count — so one directory can be reachable under
several names and cycles can be formed. -/
theorem c10_ln_accepts_directory (st : FileSystem) (target dest : String)
    (tid pid : Nat)
    (h1 : get_node st target = some tid) (h2 : isDirN st tid = true)
    (h3 : get_directory_or_fail st (parent_path_of dest) = .ok pid) :
    (ln st target dest).1 = .ok tid ∧
    dictGet (childrenOf (ln st target dest).2 pid) (requested_of dest) = some tid ∧
    linksOf (ln st target dest).2 tid = linksOf st tid + 1 ∧
    isDirN (ln st target dest).2 tid = true := by
  have hor : get_node_or_fail st target = .ok tid := by
    unfold get_node_or_fail
    rw [h1]
  have htid := isDirN_lt st tid h2
  have hpid := isDirN_lt st pid (get_directory_or_fail_ok st _ pid h3).2
  obtain ⟨hlen1, hcur1, hroot1, hpath1, hdata1, hself1, hne1, hcnt1⟩ :=
    inc_links_spec st tid htid
  obtain ⟨ch, par, hd⟩ := isDirN_dir st pid (get_directory_or_fail_ok st _ pid h3).2
  have hd1 : (getRec (inc_links st tid) pid).data = .dir ch par := by
    rw [hdata1 pid, hd]
  have hp1 : pid < (inc_links st tid).nodes.length := by omega
  obtain ⟨hlen2, hcur2, hroot2, hpath2, hlks2, hrecp2, hrecne2, hcnt2⟩ :=
    add_child_spec (inc_links st tid) pid (requested_of dest) tid ch par hd1 hp1
  have hpair : ln st target dest =
      (.ok tid, add_child (inc_links st tid) pid (requested_of dest) tid) := by
    simp only [ln, hor, h3]
  rw [hpair]
  refine ⟨rfl, ?_, ?_, ?_⟩
  · rw [childrenOf, hrecp2]
    simp only [childEntries]
    exact dictGet_insert_self ch (requested_of dest) tid
  · show (getRec (add_child (inc_links st tid) pid (requested_of dest) tid) tid).links =
      (getRec st tid).links + 1
    rw [hlks2 tid, hself1]
  · show isDirN (add_child (inc_links st tid) pid (requested_of dest) tid) tid = true
    by_cases hq : tid = pid
    · subst hq
      unfold isDirN
      rw [hrecp2]
    · unfold isDirN
      rw [hrecne2 tid hq, hdata1 tid]
      unfold isDirN at h2
      exact h2

/-- C10 witness: linking the directory a to a/loop creates a cycle: the
entry loop inside a references a itself, and the link count of a rises
to 2. -/
theorem c10_ln_accepts_directory_witness :
    (ln st_c10 "a" "a/loop").1 = .ok 1 ∧
    dictGet (childrenOf (ln st_c10 "a" "a/loop").2 1) (requested_of "a/loop") = some 1 ∧
    linksOf (ln st_c10 "a" "a/loop").2 1 = linksOf st_c10 1 + 1 ∧
    isDirN (ln st_c10 "a" "a/loop").2 1 = true := by
  have h := c10_ln_accepts_directory st_c10 "a" "a/loop" 1 1
    (by decide) (by decide) (by decide)
  exact h

end PyFS
